import Mathlib

/-!
Verification of the pathfinding / road-status engine extracted from
`frontend/src/PathfindingVisualizer.js`.

Modelling conventions:
* JavaScript strings are modelled as `List Char` (`Str`); string literals
  appear as `"...".data`.
* Numbers are rationals (`ℚ`); the JS quirks `x || 0`, `x || Infinity`
  (where `0` is falsy) and `Infinity` are modelled explicitly.
* `Set`s of edge ids are insertion-ordered duplicate-free lists with
  `sAdd` / `sDel`; `Map`s are association lists with insert-or-overwrite
  (`mSet`), matching JS iteration order.
* The asynchronous aspects (animation delays, pause/cancel) are dropped;
  the A* loop is given explicit fuel, with a distinguished `outOfFuel`
  outcome standing for a non-terminating run.
* `haversineDistance` is trigonometric floating-point code; it is modelled
  as an explicit function parameter `hav` throughout, and concrete runs
  instantiate it with a nonnegative rational stand-in `havApprox`.
-/

namespace PathViz

/-- JavaScript string: a list of characters. -/
abbrev Str := List Char

/-- `Set.add` (JS): append if not already present (insertion order kept). -/
def sAdd (s : List Str) (x : Str) : List Str :=
  if x ∈ s then s else s ++ [x]

/-- `Set.delete` (JS). -/
def sDel (s : List Str) (x : Str) : List Str :=
  s.filter (fun y => y ≠ x)

/-- `Map.set` (JS): overwrite in place if the key exists, else append. -/
def mSet {α : Type} (m : List (Str × α)) (k : Str) (v : α) : List (Str × α) :=
  if (m.lookup k).isSome then
    m.map (fun p => if p.1 = k then (k, v) else p)
  else m ++ [(k, v)]

theorem mem_sAdd {s : List Str} {x y : Str} :
    y ∈ sAdd s x ↔ y ∈ s ∨ y = x := by
  unfold sAdd
  split
  · constructor
    · exact Or.inl
    · rintro (h | rfl) <;> assumption
  · simp

theorem mem_sDel {s : List Str} {x y : Str} :
    y ∈ sDel s x ↔ y ∈ s ∧ y ≠ x := by
  simp [sDel]

theorem mem_mSet {α : Type} {m : List (Str × α)} {k : Str} {v : α}
    {p : Str × α} (h : p ∈ mSet m k v) : p ∈ m ∨ p = (k, v) := by
  unfold mSet at h
  split at h
  · rcases List.mem_map.1 h with ⟨q, hq, hqe⟩
    by_cases hk : q.1 = k
    · right; simp [hk] at hqe; exact hqe.symm
    · left; simp only [hk, if_false] at hqe; exact hqe ▸ hq
  · rcases List.mem_append.1 h with h | h
    · exact Or.inl h
    · simp at h; exact Or.inr h

/-! ## Data model -/

/-- A graph node (`{id, lat, lng, name, isPOI}`).  The `lng ?? lon`
fallback of the source is normalised into the single field `lng`. -/
structure Node where
  id : Str
  lat : ℚ
  lng : ℚ
  name : Str
  isPOI : Bool
deriving DecidableEq, Repr

/-- A graph edge (`{id, from, to, distance, bidirectional}`).
`distance` is always present (the `?? 1` fallback of the source is for
absent fields), and `bidirectional !== false` is the Bool itself. -/
structure Edge where
  id : Str
  «from» : Str
  «to» : Str
  distance : ℚ
  bidirectional : Bool
deriving DecidableEq, Repr

/-- The graph held in component state: `{ nodes: [...], edges: [...] }`. -/
structure Graph where
  nodes : List Node
  edges : List Edge
deriving DecidableEq, Repr

/-- A raw click coordinate. -/
structure Point where
  lat : ℚ
  lng : ℚ
deriving DecidableEq, Repr

/-- A projection record `{lat, lng, t}` as produced by
`findNearestEdgeAndProjection`. -/
structure Projection where
  lat : ℚ
  lng : ℚ
  t : ℚ
deriving DecidableEq, Repr

/-- The `"virtual_"` id marker used by the A* frontier expansion. -/
def virtualTag : Str := "virtual_".data

/-- `String(edge.id).startsWith("virtual_")`. -/
def isVirtualId (s : Str) : Bool := virtualTag.isPrefixOf s

/-- `const EPS = 1e-9`. -/
def EPS : ℚ := 1 / 1000000000

/-- `Math.round` (round half toward positive infinity). -/
def jsRound (q : ℚ) : ℤ := ⌊q + 1 / 2⌋

/-- Digit character for `Number.prototype.toString(36)`. -/
def digit36 (d : ℕ) : Char :=
  if d < 10 then Char.ofNat (48 + d) else Char.ofNat (87 + d)

/-- Base-36 digits of a natural number (fuel-driven division loop). -/
def nat36 : ℕ → ℕ → List Char
  | 0, _ => []
  | f + 1, n => if n = 0 then [] else nat36 f (n / 36) ++ [digit36 (n % 36)]

/-- `n.toString(36)` for an integer `n`. -/
def intToBase36 (n : ℤ) : Str :=
  if n = 0 then ['0']
  else if n < 0 then '-' :: nat36 (n.natAbs + 1) n.natAbs
  else nat36 (n.natAbs + 1) n.natAbs

/-! ## Edge split (`splitEdgeAtSync`) -/

/-- Result record of `splitEdgeAtSync`:
`{ newNodeId, newGraph, newBlockedSet, newTrafficSet }`. -/
structure SplitResult where
  newNodeId : Option Str
  newGraph : Graph
  newBlockedSet : List Str
  newTrafficSet : List Str
deriving DecidableEq, Repr

/-- `splitEdgeAtSync(prevGraph, edgeId, projection, prevBlockedSet,
prevTrafficSet)`, parameterised by the haversine function `hav`. -/
def splitEdgeAtSync (hav : ℚ → ℚ → ℚ → ℚ → ℚ) (prevGraph : Graph)
    (edgeId : Str) (projection : Projection)
    (prevBlockedSet prevTrafficSet : List Str) : SplitResult :=
  match prevGraph.edges.find? (fun e => e.id == edgeId) with
  | none => ⟨none, prevGraph, prevBlockedSet, prevTrafficSet⟩
  | some edge =>
    let t := projection.t
    if t ≤ EPS then ⟨some edge.«from», prevGraph, prevBlockedSet, prevTrafficSet⟩
    else if t ≥ 1 - EPS then ⟨some edge.«to», prevGraph, prevBlockedSet, prevTrafficSet⟩
    else
      let newNodeId := edge.id ++ "_p_".data ++ intToBase36 (jsRound (t * 1000000))
      if prevGraph.nodes.any (fun n => n.id == newNodeId) then
        ⟨some newNodeId, prevGraph, prevBlockedSet, prevTrafficSet⟩
      else
        match prevGraph.nodes.find? (fun n => n.id == edge.«from»),
              prevGraph.nodes.find? (fun n => n.id == edge.«to») with
        | some fromNode, some toNode =>
          let newNode : Node :=
            { id := newNodeId, lat := projection.lat, lng := projection.lng,
              name := (if fromNode.name = [] then edge.«from» else fromNode.name)
                ++ "‚Üî".data
                ++ (if toNode.name = [] then edge.«to» else toNode.name)
                ++ " (split)".data,
              isPOI := false }
          let distA := hav fromNode.lat fromNode.lng newNode.lat newNode.lng
          let distB := hav newNode.lat newNode.lng toNode.lat toNode.lng
          let e1 : Edge :=
            { id := edge.id ++ "_a".data, «from» := edge.«from», «to» := newNodeId,
              distance := ((max 1 (jsRound distA) : ℤ) : ℚ),
              bidirectional := edge.bidirectional }
          let e2 : Edge :=
            { id := edge.id ++ "_b".data, «from» := newNodeId, «to» := edge.«to»,
              distance := ((max 1 (jsRound distB) : ℤ) : ℚ),
              bidirectional := edge.bidirectional }
          let newGraph : Graph :=
            { nodes := prevGraph.nodes ++ [newNode],
              edges := prevGraph.edges.filter (fun e => ¬ e.id == edge.id) ++ [e1, e2] }
          let newBlocked :=
            if edge.id ∈ prevBlockedSet then
              sAdd (sAdd (sDel prevBlockedSet edge.id) e1.id) e2.id
            else prevBlockedSet
          let newTraffic :=
            if edge.id ∈ prevTrafficSet then
              sAdd (sAdd (sDel prevTrafficSet edge.id) e1.id) e2.id
            else prevTrafficSet
          ⟨some newNodeId, newGraph, newBlocked, newTraffic⟩
        | _, _ => ⟨none, prevGraph, prevBlockedSet, prevTrafficSet⟩

/-! ## Undirected BFS and road-status run resolution -/

/-- `path[path.length - 1]` (JS indexing on a possibly-empty array). -/
def jsLast (l : List Str) : Str := l.getLastD []

/-- One pass of the inner `for (const edge of graphArg.edges)` loop of
`findPathBetweenNodesUndirected`: enqueue unvisited neighbours of
`current`.  The JS `if (neighbor && ...)` truthiness test makes the empty
id falsy, hence the `nb ≠ []` guard. -/
def bfsExpand (edges : List Edge) (current : Str) (path : List Str) :
    List (List Str) → List Str → List Edge → (List (List Str)) × List Str
  | queue, visited, [] => (queue, visited)
  | queue, visited, e :: rest =>
    let nb : Option Str :=
      if e.«from» = current then some e.«to»
      else if e.«to» = current then some e.«from»
      else none
    match nb with
    | some nb =>
      if nb ≠ [] ∧ nb ∉ visited then
        bfsExpand edges current path (queue ++ [path ++ [nb]]) (visited ++ [nb]) rest
      else bfsExpand edges current path queue visited rest
    | none => bfsExpand edges current path queue visited rest

/-- The `while (queue.length)` loop of `findPathBetweenNodesUndirected`,
driven by fuel. -/
def bfsLoop (edges : List Edge) (endNodeId : Str) :
    ℕ → List (List Str) → List Str → Option (List Str)
  | 0, _, _ => none
  | _ + 1, [], _ => none
  | f + 1, path :: queue, visited =>
    let current := jsLast path
    if current = endNodeId then some path
    else
      let (queue', visited') := bfsExpand edges current path queue visited edges
      bfsLoop edges endNodeId f queue' visited'

/-- `findPathBetweenNodesUndirected(graphArg, startNodeId, endNodeId)`:
undirected FIFO BFS returning the node path, or `none`.  The fuel
`2 * |edges| + 3` dominates the number of loop iterations (each node is
enqueued at most once and only nodes incident to an edge are enqueued). -/
def findPathBetweenNodesUndirected (graphArg : Graph)
    (startNodeId endNodeId : Str) : Option (List Str) :=
  if graphArg.edges = [] then none
  else bfsLoop graphArg.edges endNodeId (2 * graphArg.edges.length + 3)
    [[startNodeId]] [startNodeId]

/-- The id/endpoint record kept for a road-status click
(`{ edgeId, from, to }`). -/
structure EdgeInfo where
  edgeId : Str
  «from» : Str
  «to» : Str
deriving DecidableEq, Repr

/-- `edgesBetween`: all parallel edges joining `a` and `b`, either
direction (the `graph.edges.filter` of the second-click handler). -/
def edgesBetween (g : Graph) (a b : Str) : List Edge :=
  g.edges.filter (fun e => (e.«from» = a ∧ e.«to» = b) ∨ (e.«from» = b ∧ e.«to» = a))

/-- Consecutive pairs `(pathNodes[i], pathNodes[i+1])`. -/
def consecPairs (l : List Str) : List (Str × Str) := l.zip l.tail

/-- The accumulation loop of the second-click handler: for each
consecutive node pair, add the ids of all parallel edges between the
pair to the edit set. -/
def addRunEdges (g : Graph) : List (Str × Str) → List Str → List Str
  | [], acc => acc
  | (a, b) :: rest, acc =>
    addRunEdges g rest ((edgesBetween g a b).foldl (fun s e => sAdd s e.id) acc)

/-- The edit set (`edgesToModify`) computed on the second road-status
click: the single clicked edge if both clicks hit the same edge,
otherwise the two clicked edges plus all parallel edges along the first
succeeding of the four undirected BFS attempts; `none` if none of the
four attempts connects. -/
def computeEditSet (g : Graph) (startEdgeInfo endEdgeInfo : EdgeInfo) :
    Option (List Str) :=
  if startEdgeInfo.edgeId = endEdgeInfo.edgeId then
    some (sAdd [] startEdgeInfo.edgeId)
  else
    let pathNodes :=
      (findPathBetweenNodesUndirected g startEdgeInfo.«to» endEdgeInfo.«from»).orElse fun _ =>
      (findPathBetweenNodesUndirected g startEdgeInfo.«from» endEdgeInfo.«to»).orElse fun _ =>
      (findPathBetweenNodesUndirected g startEdgeInfo.«to» endEdgeInfo.«to»).orElse fun _ =>
      findPathBetweenNodesUndirected g startEdgeInfo.«from» endEdgeInfo.«from»
    match pathNodes with
    | some pn =>
      if pn ≠ [] then
        some (addRunEdges g (consecPairs pn)
          (sAdd (sAdd [] startEdgeInfo.edgeId) endEdgeInfo.edgeId))
      else none
    | none => none

/-- Road-status mode selected in the UI. -/
inductive RoadStatus where
  | block
  | traffic
  | clear
deriving DecidableEq, Repr

/-- The `setBlockedEdges` functional update of the second-click handler:
add every edit-set id when blocking, else delete them all. -/
def applyBlockedRun (es : List Str) (status : RoadStatus)
    (currentBlocked : List Str) : List Str :=
  es.foldl (fun s eid => if status = RoadStatus.block then sAdd s eid else sDel s eid)
    currentBlocked

/-- The `setTrafficJamEdges` functional update of the second-click
handler. -/
def applyTrafficRun (es : List Str) (status : RoadStatus)
    (currentTraffic : List Str) : List Str :=
  es.foldl (fun s eid => if status = RoadStatus.traffic then sAdd s eid else sDel s eid)
    currentTraffic

/-- The whole second-click road-status operation on the overlay: returns
the new `(blocked, traffic)` pair together with `true` on success, or
the unchanged overlay with `false` when resolution fails (the handler
alerts and returns before any set update). -/
def roadStatusApply (g : Graph) (startEdgeInfo endEdgeInfo : EdgeInfo)
    (status : RoadStatus) (blocked traffic : List Str) :
    (List Str × List Str) × Bool :=
  match computeEditSet g startEdgeInfo endEdgeInfo with
  | some es => ((applyBlockedRun es status blocked, applyTrafficRun es status traffic), true)
  | none => ((blocked, traffic), false)

/-- `toggleEdgeStatusByEdgeId(edgeId, status)` acting on the two overlay
sets (`status = clear` models the `null` argument). -/
def toggleEdgeStatusByEdgeId (edgeId : Str) (status : RoadStatus)
    (blocked traffic : List Str) : List Str × List Str :=
  ((if status = RoadStatus.block then sAdd blocked edgeId else sDel blocked edgeId),
   (if status = RoadStatus.traffic then sAdd traffic edgeId else sDel traffic edgeId))

/-- The edit set as the specification words it: the single clicked edge
when both clicks resolve to the same edge; otherwise the union of the
two clicked edges' ids plus the ids of all parallel edges between each
consecutive node pair along the path found by the first succeeding of
the four BFS attempts `(first.to→second.from)`, `(first.from→second.to)`,
`(first.to→second.to)`, `(first.from→second.from)`, in that order.
Declared separately from `computeEditSet` (which mirrors the source) so
the two can be compared. -/
def specEditSet (g : Graph) (startEdgeInfo endEdgeInfo : EdgeInfo) :
    Option (List Str) :=
  if startEdgeInfo.edgeId = endEdgeInfo.edgeId then
    some [startEdgeInfo.edgeId]
  else
    match
      (findPathBetweenNodesUndirected g startEdgeInfo.«to» endEdgeInfo.«from»).orElse fun _ =>
      (findPathBetweenNodesUndirected g startEdgeInfo.«from» endEdgeInfo.«to»).orElse fun _ =>
      (findPathBetweenNodesUndirected g startEdgeInfo.«to» endEdgeInfo.«to»).orElse fun _ =>
      findPathBetweenNodesUndirected g startEdgeInfo.«from» endEdgeInfo.«from» with
    | some pn =>
      some (startEdgeInfo.edgeId :: endEdgeInfo.edgeId ::
        (consecPairs pn).flatMap (fun pr => (edgesBetween g pr.1 pr.2).map (fun e => e.id)))
    | none => none

/-- Membership in an optional edit set. -/
def memEdit (r : Option (List Str)) (x : Str) : Prop :=
  ∃ l, r = some l ∧ x ∈ l

/-! ## Nearest edge and projection -/

/-- `dist < minDistance` with `none` standing for `Infinity`. -/
def qltOpt (d : ℚ) : Option ℚ → Bool
  | none => true
  | some m => d < m

/-- The edge scan of `findNearestEdgeAndProjection`, accumulating the
current best `(edge, projection, minDistance)`. -/
def nearestScan (hav : ℚ → ℚ → ℚ → ℚ → ℚ) (nodes : List Node)
    (clickedLat clickedLng : ℚ) :
    List Edge → Option (Edge × Projection × ℚ) → Option (Edge × Projection × ℚ)
  | [], best => best
  | edge :: rest, best =>
    match nodes.find? (fun n => n.id == edge.«from»),
          nodes.find? (fun n => n.id == edge.«to») with
    | some fromNode, some toNode =>
      let dx := toNode.lng - fromNode.lng
      let dy := toNode.lat - fromNode.lat
      let lengthSquared := dx * dx + dy * dy
      if lengthSquared = 0 then
        let dist := hav clickedLat clickedLng fromNode.lat fromNode.lng
        if qltOpt dist (best.map (fun b => b.2.2)) then
          nearestScan hav nodes clickedLat clickedLng rest
            (some (edge, ⟨fromNode.lat, fromNode.lng, 0⟩, dist))
        else nearestScan hav nodes clickedLat clickedLng rest best
      else
        let t := max 0 (min 1
          (((clickedLng - fromNode.lng) * dx + (clickedLat - fromNode.lat) * dy)
            / lengthSquared))
        let projLat := fromNode.lat + t * dy
        let projLng := fromNode.lng + t * dx
        let dist := hav clickedLat clickedLng projLat projLng
        if qltOpt dist (best.map (fun b => b.2.2)) then
          nearestScan hav nodes clickedLat clickedLng rest
            (some (edge, ⟨projLat, projLng, t⟩, dist))
        else nearestScan hav nodes clickedLat clickedLng rest best
    | _, _ => nearestScan hav nodes clickedLat clickedLng rest best

/-- `findNearestEdgeAndProjection(clickedLat, clickedLng, graphArg)`:
scan all edges, return the one whose projected point is closest to the
click (strict `<`, first encountered wins), or `none` on an edgeless
graph. -/
def findNearestEdgeAndProjection (hav : ℚ → ℚ → ℚ → ℚ → ℚ) (graphArg : Graph)
    (clickedLat clickedLng : ℚ) : Option (Edge × Projection × ℚ) :=
  if graphArg.edges = [] then none
  else nearestScan hav graphArg.nodes clickedLat clickedLng graphArg.edges none

/-! ## A* search (`runAStar`) -/

/-- `"virtual_start"`. -/
def startVirtualId : Str := "virtual_start".data

/-- `"virtual_end"`. -/
def endVirtualId : Str := "virtual_end".data

/-- Fixed context of one `runAStar` call. -/
structure Ctx where
  hav : ℚ → ℚ → ℚ → ℚ → ℚ
  augNodes : List Node
  augEdges : List Edge
  blocked : List Str
  traffic : List Str
  endPt : Point

/-- `heuristicFunc(nodeId)`: great-circle distance from the node to the
bound end coordinate (0 for an unknown id). -/
def heuristicFunc (c : Ctx) (nodeId : Str) : ℚ :=
  match c.augNodes.find? (fun n => n.id == nodeId) with
  | none => 0
  | some node => c.hav node.lat node.lng c.endPt.lat c.endPt.lng

/-- `getAugmentedNeighbors(nodeId)`: expansion over the augmented edge
list.  An edge whose id is in the blocked set is skipped unless its id
starts with `"virtual_"`; a congested id multiplies the weight by 3
(virtual ids included); direction is honoured via `bidirectional`. -/
def getAugmentedNeighbors (c : Ctx) (nodeId : Str) : List (Str × ℚ) :=
  c.augEdges.filterMap (fun edge =>
    if edge.id ∈ c.blocked ∧ ¬ isVirtualId edge.id then none
    else
      let weight := if edge.id ∈ c.traffic then edge.distance * 3 else edge.distance
      if edge.«from» = nodeId then some (edge.«to», weight)
      else if edge.«to» = nodeId ∧ edge.bidirectional then some (edge.«from», weight)
      else none)

/-- `fScore.get(node) || Infinity`: a present value of `0` is falsy in
JS and also yields `Infinity` (`none`). -/
def orInf : Option ℚ → Option ℚ
  | some v => if v = 0 then none else some v
  | none => none

/-- `<` on `ℚ ∪ {Infinity}` (`none` = `Infinity`). -/
def oLT : Option ℚ → Option ℚ → Bool
  | some a, some b => a < b
  | some _, none => true
  | none, _ => false

/-- `tentativeG >= (gScore.get(id) || Infinity)` (`none` = `Infinity`). -/
def geInf (q : ℚ) : Option ℚ → Bool
  | none => false
  | some v => v ≤ q

/-- The `for (const node of openSet)` minimum-f scan (first-found
strict minimum; insertion order of the JS `Set` is the list order). -/
def findMinLoop (fs : List (Str × ℚ)) :
    List Str → Option Str → Option ℚ → Option Str
  | [], current, _ => current
  | node :: rest, current, lowestF =>
    let f := orInf (fs.lookup node)
    if oLT f lowestF then findMinLoop fs rest (some node) f
    else findMinLoop fs rest current lowestF

/-- Mutable state of the A* loop. -/
structure AState where
  openSet : List Str
  closedSet : List Str
  cameFrom : List (Str × Str)
  gScore : List (Str × ℚ)
  fScore : List (Str × ℚ)

/-- `reconstructPath(cameFrom, current)`: follow parent pointers,
prepending; fuel bounds the walk (the JS `while` would spin on a cyclic
map). -/
def reconstructPath (cameFrom : List (Str × Str)) :
    ℕ → Str → List Str → List Str
  | 0, current, acc => current :: acc
  | f + 1, current, acc =>
    match cameFrom.lookup current with
    | some prev => reconstructPath cameFrom f prev (current :: acc)
    | none => current :: acc

/-- Outcome of the search loop. -/
inductive AResult where
  | success (path : List Str) (dist : ℚ) (explored : ℕ)
  | noPath (explored : ℕ)
  | outOfFuel
deriving DecidableEq, Repr

/-- The `for (const neighbor of neighbors)` relaxation loop.  A closed
neighbour is skipped; an unopened neighbour is opened; an opened
neighbour with no better tentative `g` is skipped; otherwise parent,
`g` and `f` are overwritten. -/
def processNeighbors (c : Ctx) (current : Str) :
    List (Str × ℚ) → AState → AState
  | [], s => s
  | (nid, cost) :: rest, s =>
    if nid ∈ s.closedSet then processNeighbors c current rest s
    else
      let tentativeG := ((s.gScore.lookup current).getD 0) + cost
      if nid ∉ s.openSet then
        processNeighbors c current rest
          { s with openSet := sAdd s.openSet nid,
                   cameFrom := mSet s.cameFrom nid current,
                   gScore := mSet s.gScore nid tentativeG,
                   fScore := mSet s.fScore nid (tentativeG + heuristicFunc c nid) }
      else if geInf tentativeG (orInf (s.gScore.lookup nid)) then
        processNeighbors c current rest s
      else
        processNeighbors c current rest
          { s with cameFrom := mSet s.cameFrom nid current,
                   gScore := mSet s.gScore nid tentativeG,
                   fScore := mSet s.fScore nid (tentativeG + heuristicFunc c nid) }

/-- The `while (openSet.size > 0)` A* loop, driven by fuel.  When the
minimum-f scan yields no node (all stored `f` are `0`, hence falsy), the
JS loop adds `null` to the closed set and spins forever without changing
any string-keyed state; this is modelled as plain fuel consumption. -/
def astarLoop (c : Ctx) : ℕ → AState → ℕ → AResult
  | 0, s, explored => if s.openSet = [] then .noPath explored else .outOfFuel
  | fuel + 1, s, explored =>
    if s.openSet = [] then .noPath explored
    else
      match findMinLoop s.fScore s.openSet none none with
      | none => astarLoop c fuel s (explored + 1)
      | some current =>
        if current = endVirtualId then
          .success (reconstructPath s.cameFrom (s.cameFrom.length + 1) current [])
            ((s.gScore.lookup current).getD 0) (explored + 1)
        else
          let s1 : AState :=
            { s with openSet := sDel s.openSet current,
                     closedSet := sAdd s.closedSet current }
          astarLoop c fuel
            (processNeighbors c current (getAugmentedNeighbors c current) s1)
            (explored + 1)

/-- The two synthetic bidirectional connector edges joining a virtual
endpoint to both endpoints of its nearest edge (empty if there is no
nearest edge or its endpoint nodes are missing). -/
def connectorEdges (hav : ℚ → ℚ → ℚ → ℚ → ℚ) (g : Graph) (pt : Point)
    (virtualId tag1 tag2 : Str) : List Edge :=
  match findNearestEdgeAndProjection hav g pt.lat pt.lng with
  | some (edge, _, _) =>
    match g.nodes.find? (fun n => n.id == edge.«from»),
          g.nodes.find? (fun n => n.id == edge.«to») with
    | some fromNode, some toNode =>
      [{ id := tag1, «from» := virtualId, «to» := edge.«from»,
         distance := hav pt.lat pt.lng fromNode.lat fromNode.lng,
         bidirectional := true },
       { id := tag2, «from» := virtualId, «to» := edge.«to»,
         distance := hav pt.lat pt.lng toNode.lat toNode.lng,
         bidirectional := true }]
    | _, _ => []
  | none => []

/-- The transient augmented node list of one `runAStar` call. -/
def augmentedNodes (g : Graph) (sp ep : Point) : List Node :=
  g.nodes ++
    [{ id := startVirtualId, lat := sp.lat, lng := sp.lng,
       name := "Start Point".data, isPOI := false },
     { id := endVirtualId, lat := ep.lat, lng := ep.lng,
       name := "End Point".data, isPOI := false }]

/-- The transient augmented edge list of one `runAStar` call. -/
def augmentedEdges (hav : ℚ → ℚ → ℚ → ℚ → ℚ) (g : Graph) (sp ep : Point) :
    List Edge :=
  g.edges
    ++ connectorEdges hav g sp startVirtualId
        "virtual_start_from".data "virtual_start_to".data
    ++ connectorEdges hav g ep endVirtualId
        "virtual_end_from".data "virtual_end_to".data

/-- The search context assembled by `runAStar`. -/
def mkCtx (hav : ℚ → ℚ → ℚ → ℚ → ℚ) (g : Graph)
    (blocked traffic : List Str) (sp ep : Point) : Ctx :=
  { hav := hav, augNodes := augmentedNodes g sp ep,
    augEdges := augmentedEdges hav g sp ep,
    blocked := blocked, traffic := traffic, endPt := ep }

/-- `runAStar` as a function of the persistent graph, the overlay, and
the two bound click points. -/
def runAStar (hav : ℚ → ℚ → ℚ → ℚ → ℚ) (g : Graph)
    (blocked traffic : List Str) (sp ep : Point) (fuel : ℕ) : AResult :=
  let c := mkCtx hav g blocked traffic sp ep
  astarLoop c fuel
    { openSet := [startVirtualId], closedSet := [], cameFrom := [],
      gScore := [(startVirtualId, 0)],
      fScore := [(startVirtualId, heuristicFunc c startVirtualId)] } 0

/-! ## Component state and the stateful `runAStar` wrapper -/

/-- The `stats` record set by the search (`executionTime`, a wall-clock
reading, is not modelled). -/
structure SearchStats where
  distance : ℤ
  nodesExplored : ℕ
  pathLength : ℕ
deriving DecidableEq, Repr

/-- The slice of the React component state touched by `runAStar`. -/
structure AppState where
  graph : Graph
  blockedEdges : List Str
  trafficJamEdges : List Str
  startPoint : Option Point
  endPoint : Option Point
  pathData : List (ℚ × ℚ)
  stats : SearchStats
  isRunning : Bool
  isPaused : Bool
  isComplete : Bool
deriving DecidableEq, Repr

/-- The `pathCoords` mapping: node ids to `[lat, lng]` pairs over the
augmented node list, dropping unknown ids (`filter(Boolean)`). -/
def pathCoords (augNodes : List Node) (path : List Str) : List (ℚ × ℚ) :=
  path.filterMap (fun nodeId =>
    (augNodes.find? (fun n => n.id == nodeId)).map (fun n => (n.lat, n.lng)))

/-- `runAStar` as a state transition on the component state: it reads
`graph`, the two overlay sets and the bound points, and writes only
`pathData`, `stats` and the `isRunning`/`isPaused`/`isComplete` flags
(there is no `setGraph`, `setBlockedEdges` or `setTrafficJamEdges`
call).  A fuel-exhausted run stands for the still-running loop. -/
def runAStarApp (hav : ℚ → ℚ → ℚ → ℚ → ℚ) (s : AppState) (fuel : ℕ) :
    AppState :=
  match s.startPoint, s.endPoint with
  | some sp, some ep =>
    let s1 : AppState :=
      { s with isRunning := true, isComplete := false, isPaused := false }
    match runAStar hav s.graph s.blockedEdges s.trafficJamEdges sp ep fuel with
    | .success path dist n =>
      { s1 with
          pathData := pathCoords (augmentedNodes s.graph sp ep) path,
          stats := ⟨jsRound dist, n, path.length⟩,
          isRunning := false, isComplete := true }
    | .noPath n =>
      { s1 with stats := ⟨0, n, 0⟩, isRunning := false }
    | .outOfFuel => s1
  | _, _ => s

/-! ## Overlay-mutating operations as a step relation -/

/-- A persistent state: the graph plus the two overlay sets. -/
structure OvState where
  graph : Graph
  blocked : List Str
  traffic : List Str
deriving DecidableEq, Repr

/-- The `{edgeId, from, to}` record of an edge. -/
def infoOf (e : Edge) : EdgeInfo := ⟨e.id, e.«from», e.«to»⟩

/-- One overlay-mutating operation, as dispatched by the UI handlers:
a second road-status click whose resolution succeeded, a single-edge
toggle from an edge popup, an edge split, or clear-all. -/
inductive OvStep (hav : ℚ → ℚ → ℚ → ℚ → ℚ) : OvState → OvState → Prop
  | applyRun (s : OvState) (e1 e2 : Edge) (status : RoadStatus)
      (es : List Str)
      (h1 : e1 ∈ s.graph.edges) (h2 : e2 ∈ s.graph.edges)
      (hres : computeEditSet s.graph (infoOf e1) (infoOf e2) = some es) :
      OvStep hav s ⟨s.graph, applyBlockedRun es status s.blocked,
        applyTrafficRun es status s.traffic⟩
  | toggle (s : OvState) (e : Edge) (status : RoadStatus)
      (he : e ∈ s.graph.edges) :
      OvStep hav s ⟨s.graph,
        (toggleEdgeStatusByEdgeId e.id status s.blocked s.traffic).1,
        (toggleEdgeStatusByEdgeId e.id status s.blocked s.traffic).2⟩
  | split (s : OvState) (edgeId : Str) (projection : Projection) :
      OvStep hav s
        ⟨(splitEdgeAtSync hav s.graph edgeId projection s.blocked s.traffic).newGraph,
         (splitEdgeAtSync hav s.graph edgeId projection s.blocked s.traffic).newBlockedSet,
         (splitEdgeAtSync hav s.graph edgeId projection s.blocked s.traffic).newTrafficSet⟩
  | clearAll (s : OvState) :
      OvStep hav s ⟨s.graph, [], []⟩

/-- States reachable by a sequence of overlay-mutating operations. -/
inductive OvReach (hav : ℚ → ℚ → ℚ → ℚ → ℚ) : OvState → OvState → Prop
  | refl (s : OvState) : OvReach hav s s
  | tail {s t u : OvState} : OvReach hav s t → OvStep hav t u → OvReach hav s u

/-- `OvStep` with the split operation guarded by freshness of the two
derived edge ids with respect to the opposite overlay set (the minimal
side condition under which status propagation preserves disjointness). -/
inductive OvStepF (hav : ℚ → ℚ → ℚ → ℚ → ℚ) : OvState → OvState → Prop
  | applyRun (s : OvState) (e1 e2 : Edge) (status : RoadStatus)
      (es : List Str)
      (h1 : e1 ∈ s.graph.edges) (h2 : e2 ∈ s.graph.edges)
      (hres : computeEditSet s.graph (infoOf e1) (infoOf e2) = some es) :
      OvStepF hav s ⟨s.graph, applyBlockedRun es status s.blocked,
        applyTrafficRun es status s.traffic⟩
  | toggle (s : OvState) (e : Edge) (status : RoadStatus)
      (he : e ∈ s.graph.edges) :
      OvStepF hav s ⟨s.graph,
        (toggleEdgeStatusByEdgeId e.id status s.blocked s.traffic).1,
        (toggleEdgeStatusByEdgeId e.id status s.blocked s.traffic).2⟩
  | split (s : OvState) (edgeId : Str) (projection : Projection)
      (hfb : edgeId ∈ s.blocked →
        edgeId ++ "_a".data ∉ s.traffic ∧ edgeId ++ "_b".data ∉ s.traffic)
      (hft : edgeId ∈ s.traffic →
        edgeId ++ "_a".data ∉ s.blocked ∧ edgeId ++ "_b".data ∉ s.blocked) :
      OvStepF hav s
        ⟨(splitEdgeAtSync hav s.graph edgeId projection s.blocked s.traffic).newGraph,
         (splitEdgeAtSync hav s.graph edgeId projection s.blocked s.traffic).newBlockedSet,
         (splitEdgeAtSync hav s.graph edgeId projection s.blocked s.traffic).newTrafficSet⟩
  | clearAll (s : OvState) :
      OvStepF hav s ⟨s.graph, [], []⟩

/-- Reachability under freshness-guarded splits. -/
inductive OvReachF (hav : ℚ → ℚ → ℚ → ℚ → ℚ) : OvState → OvState → Prop
  | refl (s : OvState) : OvReachF hav s s
  | tail {s t u : OvState} : OvReachF hav s t → OvStepF hav t u → OvReachF hav s u

/-- The two overlay sets share no edge id. -/
def OverlayDisjoint (s : OvState) : Prop :=
  ∀ x : Str, x ∈ s.blocked → x ∉ s.traffic

/-! ## Edge cost function in isolation -/

/-- The traversal cost charged by the frontier expansion for one edge:
`none` when the edge is skipped (blocked and not virtual), else the base
distance, multiplied by 3 when the id is in the congested set. -/
def edgeWeight (blocked traffic : List Str) (e : Edge) : Option ℚ :=
  if e.id ∈ blocked ∧ ¬ isVirtualId e.id then none
  else some (if e.id ∈ traffic then e.distance * 3 else e.distance)

/-- Total cost of a route given as the list of edges it traverses:
the sum of the edge costs, undefined if any edge is skipped. -/
def routeCost (blocked traffic : List Str) : List Edge → Option ℚ
  | [] => some 0
  | e :: rest =>
    match edgeWeight blocked traffic e, routeCost blocked traffic rest with
    | some w, some r => some (w + r)
    | _, _ => none

/-- A concrete nonnegative rational stand-in for the floating-point
haversine distance, used to instantiate `hav` in concrete runs
(scaled taxicab metric; symmetric, zero on equal points). -/
def havApprox (lat1 lng1 lat2 lng2 : ℚ) : ℚ :=
  111000 * (|lat1 - lat2| + |lng1 - lng2|)

/-! ## Safety relations for the A* analysis -/

/-- A step `p → c` realised by some augmented edge that the frontier
expansion does not skip (i.e. it is not blocked, or it is a virtual
connector). -/
def StepOK (augE : List Edge) (blocked : List Str) (p c : Str) : Prop :=
  ∃ e ∈ augE, (e.id ∈ blocked → isVirtualId e.id = true) ∧
    ((e.«from» = p ∧ e.«to» = c) ∨
     (e.«to» = p ∧ e.«from» = c ∧ e.bidirectional = true))

/-- A step `p → c` realised by some augmented edge whose id is not in
the blocked set at all. -/
def StepSafe (augE : List Edge) (blocked : List Str) (p c : Str) : Prop :=
  ∃ e ∈ augE, e.id ∉ blocked ∧
    ((e.«from» = p ∧ e.«to» = c) ∨
     (e.«to» = p ∧ e.«from» = c ∧ e.bidirectional = true))

/-- Reachability through non-skipped steps. -/
inductive ReachOK (augE : List Edge) (blocked : List Str) : Str → Str → Prop
  | refl (a : Str) : ReachOK augE blocked a a
  | tail {a b c : Str} : ReachOK augE blocked a b → StepOK augE blocked b c →
      ReachOK augE blocked a c

/-- Reachability through steps avoiding the blocked set entirely. -/
inductive ReachSafe (augE : List Edge) (blocked : List Str) : Str → Str → Prop
  | refl (a : Str) : ReachSafe augE blocked a a
  | tail {a b c : Str} : ReachSafe augE blocked a b → StepSafe augE blocked b c →
      ReachSafe augE blocked a c

/-- The loop invariant of the A* safety proof: every parent pointer is a
non-skipped step, and every open node is reachable from the virtual
start through non-skipped steps. -/
def InvCF (augE : List Edge) (blocked : List Str) (st : AState) : Prop :=
  (∀ pr ∈ st.cameFrom, StepOK augE blocked pr.2 pr.1) ∧
  (∀ n ∈ st.openSet, ReachOK augE blocked startVirtualId n)

/-- `true` exactly on the `noPath` outcome. -/
def AResult.isNoPath : AResult → Bool
  | .noPath _ => true
  | _ => false

/-! ## Concrete fixtures for witnesses and counterexamples -/

/-- Node `A` at the origin. -/
def nodeA : Node := { id := "A".data, lat := 0, lng := 0, name := "A".data, isPOI := false }

/-- Node `B` about 111 m east of `A`. -/
def nodeB : Node := { id := "B".data, lat := 0, lng := 1 / 1000, name := "B".data, isPOI := false }

/-- Node `C` about 111 m north of `A`. -/
def nodeC : Node := { id := "C".data, lat := 1 / 1000, lng := 0, name := "C".data, isPOI := false }

/-- Node `D` about 222 m east of `A`. -/
def nodeD : Node := { id := "D".data, lat := 0, lng := 1 / 500, name := "D".data, isPOI := false }

/-- Click on `A`. -/
def ptA : Point := ⟨0, 0⟩

/-- Click on `B`. -/
def ptB : Point := ⟨0, 1 / 1000⟩

/-- Click on `C`. -/
def ptC : Point := ⟨1 / 1000, 0⟩

/-- The single one-way edge `A → B` (`bidirectional: false`). -/
def oneWayEdge : Edge :=
  { id := "e1".data, «from» := "A".data, «to» := "B".data, distance := 111,
    bidirectional := false }

/-- A graph holding only the one-way edge `A → B`. -/
def oneWayGraph : Graph := { nodes := [nodeA, nodeB], edges := [oneWayEdge] }

/-- Triangle edge `A – B`. -/
def triE1 : Edge :=
  { id := "e1".data, «from» := "A".data, «to» := "B".data, distance := 111,
    bidirectional := true }

/-- Triangle edge `B – C`. -/
def triE2 : Edge :=
  { id := "e2".data, «from» := "B".data, «to» := "C".data, distance := 111,
    bidirectional := true }

/-- Triangle edge `A – C`. -/
def triE3 : Edge :=
  { id := "e3".data, «from» := "A".data, «to» := "C".data, distance := 111,
    bidirectional := true }

/-- A bidirectional triangle on `A`, `B`, `C`. -/
def triGraph : Graph := { nodes := [nodeA, nodeB, nodeC], edges := [triE1, triE2, triE3] }

/-- An edge whose id `"X"` has the suffixed id `"X_a"` of another edge
in the same graph. -/
def edgeX : Edge :=
  { id := "X".data, «from» := "A".data, «to» := "B".data, distance := 111,
    bidirectional := true }

/-- An edge whose id is literally `"X_a"`. -/
def edgeXa : Edge :=
  { id := "X_a".data, «from» := "A".data, «to» := "D".data, distance := 222,
    bidirectional := true }

/-- Graph whose persistent edge ids are `"X"` and `"X_a"`. -/
def graphX : Graph := { nodes := [nodeA, nodeB, nodeD], edges := [edgeX, edgeXa] }

/-- A projection landing at the midpoint of `A – B` (`t = 1/2`). -/
def projHalf : Projection := ⟨0, 1 / 2000, 1 / 2⟩

/-- The overlay state after toggling `"X_a"` congested on `graphX`. -/
def ovX1 : OvState :=
  ⟨(⟨graphX, [], []⟩ : OvState).graph,
   (toggleEdgeStatusByEdgeId edgeXa.id RoadStatus.traffic
     (⟨graphX, [], []⟩ : OvState).blocked (⟨graphX, [], []⟩ : OvState).traffic).1,
   (toggleEdgeStatusByEdgeId edgeXa.id RoadStatus.traffic
     (⟨graphX, [], []⟩ : OvState).blocked (⟨graphX, [], []⟩ : OvState).traffic).2⟩

/-- `ovX1` after toggling `"X"` blocked. -/
def ovX2 : OvState :=
  ⟨ovX1.graph,
   (toggleEdgeStatusByEdgeId edgeX.id RoadStatus.block ovX1.blocked ovX1.traffic).1,
   (toggleEdgeStatusByEdgeId edgeX.id RoadStatus.block ovX1.blocked ovX1.traffic).2⟩

/-- `ovX2` after splitting edge `"X"` at its midpoint. -/
def ovX3 : OvState :=
  ⟨(splitEdgeAtSync havApprox ovX2.graph edgeX.id projHalf ovX2.blocked ovX2.traffic).newGraph,
   (splitEdgeAtSync havApprox ovX2.graph edgeX.id projHalf ovX2.blocked ovX2.traffic).newBlockedSet,
   (splitEdgeAtSync havApprox ovX2.graph edgeX.id projHalf ovX2.blocked ovX2.traffic).newTrafficSet⟩

/-- Edge `"E"` from `A` to `B`, used for the split analyses. -/
def edgeE : Edge :=
  { id := "E".data, «from» := "A".data, «to» := "B".data, distance := 111,
    bidirectional := true }

/-- A node whose id collides with the derived split-node id of edge
`"E"` at `t = 1/1000000` (`"E_p_1"`). -/
def nodeEp1 : Node := { id := "E_p_1".data, lat := 5, lng := 5, name := "q".data, isPOI := false }

/-- Graph containing edge `"E"` and a node already named `"E_p_1"`. -/
def graphEclash : Graph := { nodes := [nodeA, nodeB, nodeEp1], edges := [edgeE] }

/-- A projection with `t = 1/1000000`, strictly inside `(EPS, 1-EPS)`. -/
def projTiny : Projection := ⟨0, 1 / 1000000000, 1 / 1000000⟩

/-- Graph containing only edge `"E"` between `A` and `B`. -/
def graphE : Graph := { nodes := [nodeA, nodeB], edges := [edgeE] }

/-- Node `B2`, less than one metre east of `A`. -/
def nodeB2 : Node :=
  { id := "B2".data, lat := 0, lng := 1 / 1000000, name := "B2".data, isPOI := false }

/-- A short edge `"F"` whose fragments measure under half a metre. -/
def edgeF : Edge :=
  { id := "F".data, «from» := "A".data, «to» := "B2".data, distance := 1,
    bidirectional := true }

/-- Graph containing only the short edge `"F"`. -/
def graphF : Graph := { nodes := [nodeA, nodeB2], edges := [edgeF] }

/-- Midpoint projection on `"F"`. -/
def projF : Projection := ⟨0, 1 / 2000000, 1 / 2⟩

/-- A plain 5 m edge `"w"` used for route-cost statements. -/
def edgeW : Edge :=
  { id := "w".data, «from» := "A".data, «to» := "B".data, distance := 5,
    bidirectional := true }

/-- A connector edge with the reserved id `"virtual_start_from"`. -/
def connW : Edge :=
  { id := "virtual_start_from".data, «from» := startVirtualId, «to» := "A".data,
    distance := 5, bidirectional := true }

/-- A context whose congested set contains the connector id. -/
def ctxW : Ctx :=
  { hav := havApprox, augNodes := [], augEdges := [connW], blocked := [],
    traffic := [connW.id], endPt := ptA }

/-- A context whose blocked set contains the connector id. -/
def ctxW2 : Ctx :=
  { hav := havApprox, augNodes := [], augEdges := [connW], blocked := [connW.id],
    traffic := [], endPt := ptA }

/-- Disconnected graph: edge `"d1"` joins `A – B`, edge `"d2"` joins
`C – D`, with no connection between the two components. -/
def edgeD1 : Edge :=
  { id := "d1".data, «from» := "A".data, «to» := "B".data, distance := 111,
    bidirectional := true }

/-- Second component edge `"d2"`. -/
def edgeD2 : Edge :=
  { id := "d2".data, «from» := "C".data, «to» := "D".data, distance := 111,
    bidirectional := true }

/-- The two-component graph for the failed-resolution analysis. -/
def graphDisc : Graph :=
  { nodes := [nodeA, nodeB, nodeC, nodeD], edges := [edgeD1, edgeD2] }

/-- The overlay state after toggling `"e1"` blocked on the triangle. -/
def ovTri1 : OvState :=
  ⟨(⟨triGraph, [], []⟩ : OvState).graph,
   (toggleEdgeStatusByEdgeId triE1.id RoadStatus.block
     (⟨triGraph, [], []⟩ : OvState).blocked (⟨triGraph, [], []⟩ : OvState).traffic).1,
   (toggleEdgeStatusByEdgeId triE1.id RoadStatus.block
     (⟨triGraph, [], []⟩ : OvState).blocked (⟨triGraph, [], []⟩ : OvState).traffic).2⟩

/-- Initial overlay state on `graphE`. -/
def ovE0 : OvState := ⟨graphE, [], []⟩

/-- `ovE0` after toggling `"E"` blocked. -/
def ovE1 : OvState :=
  ⟨ovE0.graph,
   (toggleEdgeStatusByEdgeId edgeE.id RoadStatus.block ovE0.blocked ovE0.traffic).1,
   (toggleEdgeStatusByEdgeId edgeE.id RoadStatus.block ovE0.blocked ovE0.traffic).2⟩

/-- `ovE1` after the (freshness-guarded) midpoint split of `"E"`. -/
def ovE2 : OvState :=
  ⟨(splitEdgeAtSync havApprox ovE1.graph edgeE.id projHalf ovE1.blocked ovE1.traffic).newGraph,
   (splitEdgeAtSync havApprox ovE1.graph edgeE.id projHalf ovE1.blocked ovE1.traffic).newBlockedSet,
   (splitEdgeAtSync havApprox ovE1.graph edgeE.id projHalf ovE1.blocked ovE1.traffic).newTrafficSet⟩

/-! ## C8: effect of congesting one edge on a route's total cost -/

theorem edgeWeight_sAdd_of_ne (blocked traffic : List Str) (y : Str)
    (e : Edge) (h : e.id ≠ y) :
    edgeWeight blocked (sAdd traffic y) e = edgeWeight blocked traffic e := by
  unfold edgeWeight
  have hm : (e.id ∈ sAdd traffic y) ↔ (e.id ∈ traffic) := by
    rw [mem_sAdd]; simp [h]
  split
  · rfl
  · simp only [hm]

theorem routeCost_sAdd_of_not_mem (blocked traffic : List Str) (y : Str)
    (es : List Edge) (h : ∀ e ∈ es, e.id ≠ y) :
    routeCost blocked (sAdd traffic y) es = routeCost blocked traffic es := by
  induction es with
  | nil => rfl
  | cons e rest ih =>
    unfold routeCost
    rw [edgeWeight_sAdd_of_ne blocked traffic y e (h e (List.mem_cons_self e rest)),
      ih (fun x hx => h x (List.mem_cons_of_mem e hx))]

/-- C8 (amended): with the graph, the other overlay entries and the
route held fixed, marking an uncongested, traversed edge as congested
increases the route's total cost by exactly **2×** that edge's base
distance — the cost function charges `baseDistance × 3` instead of
`baseDistance`, an increase of `2 × baseDistance`, not `3 ×`. -/
theorem congestRaisesCostByTwiceBase (blocked traffic : List Str)
    (es : List Edge) (e : Edge) (c : ℚ)
    (hmem : e ∈ es)
    (honce : es.countP (fun x => x.id == e.id) = 1)
    (hnt : e.id ∉ traffic)
    (hcost : routeCost blocked traffic es = some c) :
    routeCost blocked (sAdd traffic e.id) es = some (c + 2 * e.distance) := by
  induction es generalizing c with
  | nil => exact absurd hmem (List.not_mem_nil e)
  | cons x rest ih =>
    rw [List.countP_cons] at honce
    unfold routeCost at hcost ⊢
    by_cases hx : x.id = e.id
    · have hrest0 : rest.countP (fun x => x.id == e.id) = 0 := by
        rw [if_pos (beq_iff_eq.mpr hx)] at honce; omega
      have hrest : ∀ y ∈ rest, y.id ≠ e.id := by
        intro y hy hcontra
        have := List.countP_eq_zero.1 hrest0 y hy
        simp [hcontra] at this
      have hxe : x = e := by
        rcases List.mem_cons.1 hmem with h | h
        · exact h.symm
        · exact absurd rfl (hrest e h)
      subst hxe
      have hwx : edgeWeight blocked traffic x = some x.distance := by
        unfold edgeWeight
        split
        · rename_i hbad
          rw [edgeWeight] at hcost
          simp only [if_pos hbad] at hcost
          cases hcost
        · simp [hnt]
      have hwx' : edgeWeight blocked (sAdd traffic x.id) x =
          some (x.distance * 3) := by
        unfold edgeWeight
        split
        · rename_i hbad
          rw [edgeWeight] at hcost
          simp only [if_pos hbad] at hcost
          cases hcost
        · have : x.id ∈ sAdd traffic x.id := by rw [mem_sAdd]; right; rfl
          simp [this]
      rw [hwx] at hcost
      rw [hwx', routeCost_sAdd_of_not_mem blocked traffic x.id rest hrest]
      cases hr : routeCost blocked traffic rest with
      | none => rw [hr] at hcost; cases hcost
      | some r =>
        rw [hr] at hcost
        cases hcost
        refine congrArg some ?_
        ring
    · have hone : rest.countP (fun x => x.id == e.id) = 1 := by
        rw [if_neg (by simpa using hx)] at honce; omega
      have hmem' : e ∈ rest := by
        rcases List.mem_cons.1 hmem with h | h
        · exact absurd (h ▸ rfl) hx
        · exact h
      rw [edgeWeight_sAdd_of_ne blocked traffic e.id x hx]
      cases hwx : edgeWeight blocked traffic x with
      | none => rw [hwx] at hcost; cases hcost
      | some w =>
        rw [hwx] at hcost
        cases hr : routeCost blocked traffic rest with
        | none => rw [hr] at hcost; cases hcost
        | some r =>
          rw [hr] at hcost
          cases hcost
          rw [ih r hmem' hone hr]
          refine congrArg some ?_
          ring

unseal Rat.add Rat.mul Rat.inv Rat.sub in
/-- C8 counterexample: congesting the 5 m edge `"w"` raises the cost of
the one-edge route from 5 to 15 — an increase of 10 = 2 × 5, not the
claimed 3 × 5 = 15 (which would require a total of 20). -/
theorem congestClaimedTripleIncreaseFalse :
    routeCost [] [] [edgeW] = some 5 ∧
    routeCost [] [edgeW.id] [edgeW] = some 15 ∧
    (15 : ℚ) ≠ 5 + 3 * 5 := by
  refine ⟨by decide, by decide, by decide⟩

unseal Rat.add Rat.mul Rat.inv Rat.sub in
/-- C8 witness: the amended theorem applied to the one-edge route over
`"w"`. -/
theorem congestRaisesCostByTwiceBase_witness :
    routeCost [] (sAdd [] edgeW.id) [edgeW] = some (5 + 2 * edgeW.distance) :=
  congestRaisesCostByTwiceBase [] [] [edgeW] edgeW 5
    (List.mem_cons_self edgeW []) (by decide) (by decide) (by decide)

/-! ## C6: connector edges and the overlay -/

/-- C6 (amended): a synthetic connector edge — any augmented edge whose
id starts with `"virtual_"` — is never skipped by the frontier
expansion, whatever the blocked set contains (in particular even when
its own id is in the blocked set), and its traversal cost equals its
base distance whenever its id is not in the congested set.  (The
congestion multiplier, however, is *not* exempted: a connector id in the
congested set is charged 3 × base — see the counterexample.) -/
theorem connectorBlockExemption (c : Ctx) (edge : Edge) (nodeId : Str)
    (hmem : edge ∈ c.augEdges) (hvirt : isVirtualId edge.id = true)
    (hnt : edge.id ∉ c.traffic) :
    (edge.«from» = nodeId →
      (edge.«to», edge.distance) ∈ getAugmentedNeighbors c nodeId) ∧
    (edge.«to» = nodeId → edge.«from» ≠ nodeId → edge.bidirectional = true →
      (edge.«from», edge.distance) ∈ getAugmentedNeighbors c nodeId) := by
  constructor
  · intro hfrom
    refine List.mem_filterMap.2 ⟨edge, hmem, ?_⟩
    simp [hvirt, hnt, hfrom]
  · intro hto hnfrom hbi
    refine List.mem_filterMap.2 ⟨edge, hmem, ?_⟩
    simp [hvirt, hnt, hto, hnfrom, hbi]

unseal Rat.add Rat.mul Rat.inv Rat.sub in
/-- C6 counterexample: with overlay state `traffic =
{"virtual_start_from"}`, the connector edge of that id is charged
3 × its base distance (15 instead of 5) during expansion, so a connector
edge's traversal cost does not equal its base distance for *every*
overlay state. -/
theorem connectorCongestExemptionFalse :
    getAugmentedNeighbors ctxW startVirtualId = [("A".data, 15)] ∧
    (15 : ℚ) ≠ connW.distance := by
  exact ⟨by decide, by decide⟩

/-- C6 witness: with the connector id in the blocked set, the connector
is still traversable in both directions at its base cost of 5. -/
theorem connectorBlockExemption_witness :
    ("A".data, (5 : ℚ)) ∈ getAugmentedNeighbors ctxW2 startVirtualId ∧
    (startVirtualId, (5 : ℚ)) ∈ getAugmentedNeighbors ctxW2 ("A".data) := by
  constructor
  · exact (connectorBlockExemption ctxW2 connW startVirtualId
      (by decide) (by decide) (by decide)).1 rfl
  · exact (connectorBlockExemption ctxW2 connW ("A".data)
      (by decide) (by decide) (by decide)).2 rfl (by decide) rfl

/-! ## C4: failed run resolution leaves the overlay unmodified -/

/-- C4: when the two road-status clicks resolve to different edges and
all four undirected BFS attempts fail, the resolution yields no edit
set, the operation reports failure, and both overlay sets are returned
exactly as they were (no partial edit). -/
theorem failedRunLeavesOverlayUnchanged (g : Graph)
    (startEdgeInfo endEdgeInfo : EdgeInfo) (status : RoadStatus)
    (blocked traffic : List Str)
    (hne : startEdgeInfo.edgeId ≠ endEdgeInfo.edgeId)
    (h1 : findPathBetweenNodesUndirected g startEdgeInfo.«to» endEdgeInfo.«from» = none)
    (h2 : findPathBetweenNodesUndirected g startEdgeInfo.«from» endEdgeInfo.«to» = none)
    (h3 : findPathBetweenNodesUndirected g startEdgeInfo.«to» endEdgeInfo.«to» = none)
    (h4 : findPathBetweenNodesUndirected g startEdgeInfo.«from» endEdgeInfo.«from» = none) :
    computeEditSet g startEdgeInfo endEdgeInfo = none ∧
    roadStatusApply g startEdgeInfo endEdgeInfo status blocked traffic =
      ((blocked, traffic), false) := by
  have hc : computeEditSet g startEdgeInfo endEdgeInfo = none := by
    unfold computeEditSet
    rw [if_neg hne, h1, h2, h3, h4]
    rfl
  refine ⟨hc, ?_⟩
  unfold roadStatusApply
  rw [hc]

/-- C4 witness: on the two-component graph the four BFS attempts
between the clicked edges `"d1"` and `"d2"` all fail, and the overlay
`({"q"}, ∅)` comes back unchanged with the failure flag. -/
theorem failedRunLeavesOverlayUnchanged_witness :
    computeEditSet graphDisc (infoOf edgeD1) (infoOf edgeD2) = none ∧
    roadStatusApply graphDisc (infoOf edgeD1) (infoOf edgeD2)
      RoadStatus.block ["q".data] [] = ((["q".data], []), false) :=
  failedRunLeavesOverlayUnchanged graphDisc (infoOf edgeD1) (infoOf edgeD2)
    RoadStatus.block ["q".data] [] (by decide) (by decide) (by decide)
    (by decide) (by decide)

/-! ## C9: a route query never mutates the persistent graph -/

/-- C9: whatever the outcome of the search (success, no path, or a
still-running/aborted loop), the component's stored graph — its node
and edge collections, hence their counts — and both overlay sets are
exactly what they were before the call; the virtual endpoints and
connector edges live only in the transient augmented copies. -/
theorem routeQueryPreservesGraph (hav : ℚ → ℚ → ℚ → ℚ → ℚ)
    (s : AppState) (fuel : ℕ) :
    (runAStarApp hav s fuel).graph = s.graph ∧
    (runAStarApp hav s fuel).graph.nodes.length = s.graph.nodes.length ∧
    (runAStarApp hav s fuel).graph.edges.length = s.graph.edges.length ∧
    (runAStarApp hav s fuel).blockedEdges = s.blockedEdges ∧
    (runAStarApp hav s fuel).trafficJamEdges = s.trafficJamEdges := by
  have hg : (runAStarApp hav s fuel).graph = s.graph ∧
      (runAStarApp hav s fuel).blockedEdges = s.blockedEdges ∧
      (runAStarApp hav s fuel).trafficJamEdges = s.trafficJamEdges := by
    cases hs : s.startPoint with
    | none => simp [runAStarApp, hs]
    | some sp =>
      cases he : s.endPoint with
      | none => simp [runAStarApp, hs, he]
      | some ep =>
        cases hr : runAStar hav s.graph s.blockedEdges s.trafficJamEdges sp ep fuel with
        | success path dist n => simp [runAStarApp, hs, he, hr]
        | noPath n => simp [runAStarApp, hs, he, hr]
        | outOfFuel => simp [runAStarApp, hs, he, hr]
  exact ⟨hg.1, by rw [hg.1], by rw [hg.1], hg.2.1, hg.2.2⟩

/-! ## C7 / C10: behaviour of `splitEdgeAtSync` -/

theorem ne_append_of_ne_nil (l s : Str) (h : s ≠ []) : l ≠ l ++ s := by
  intro he
  have hlen := congrArg List.length he
  rw [List.length_append] at hlen
  exact h (List.length_eq_zero.1 (by omega))

theorem splitEdgeAtSync_proper (hav : ℚ → ℚ → ℚ → ℚ → ℚ) (g : Graph)
    (eid : Str) (proj : Projection) (b t : List Str) (edge : Edge)
    (fn tn : Node)
    (hfind : g.edges.find? (fun e => e.id == eid) = some edge)
    (h1 : ¬ proj.t ≤ EPS) (h2 : ¬ proj.t ≥ 1 - EPS)
    (hfresh : g.nodes.any (fun n => n.id ==
      (edge.id ++ "_p_".data ++ intToBase36 (jsRound (proj.t * 1000000)))) = false)
    (hfn : g.nodes.find? (fun n => n.id == edge.«from») = some fn)
    (htn : g.nodes.find? (fun n => n.id == edge.«to») = some tn) :
    splitEdgeAtSync hav g eid proj b t =
      ⟨some (edge.id ++ "_p_".data ++ intToBase36 (jsRound (proj.t * 1000000))),
       ⟨g.nodes ++
          [{ id := edge.id ++ "_p_".data ++ intToBase36 (jsRound (proj.t * 1000000)),
             lat := proj.lat, lng := proj.lng,
             name := (if fn.name = [] then edge.«from» else fn.name)
               ++ "‚Üî".data
               ++ (if tn.name = [] then edge.«to» else tn.name)
               ++ " (split)".data,
             isPOI := false }],
        g.edges.filter (fun e => ¬ e.id == edge.id) ++
          [{ id := edge.id ++ "_a".data, «from» := edge.«from»,
             «to» := edge.id ++ "_p_".data ++ intToBase36 (jsRound (proj.t * 1000000)),
             distance := ((max 1 (jsRound (hav fn.lat fn.lng proj.lat proj.lng)) : ℤ) : ℚ),
             bidirectional := edge.bidirectional },
           { id := edge.id ++ "_b".data,
             «from» := edge.id ++ "_p_".data ++ intToBase36 (jsRound (proj.t * 1000000)),
             «to» := edge.«to»,
             distance := ((max 1 (jsRound (hav proj.lat proj.lng tn.lat tn.lng)) : ℤ) : ℚ),
             bidirectional := edge.bidirectional }]⟩,
       (if edge.id ∈ b then
          sAdd (sAdd (sDel b edge.id) (edge.id ++ "_a".data)) (edge.id ++ "_b".data)
        else b),
       (if edge.id ∈ t then
          sAdd (sAdd (sDel t edge.id) (edge.id ++ "_a".data)) (edge.id ++ "_b".data)
        else t)⟩ := by
  unfold splitEdgeAtSync
  rw [hfind]
  simp only [if_neg h1, if_neg h2, hfresh, hfn, htn]
  rfl

/-- C7 (amended): for `t ≤ ε` (resp. `t ≥ 1-ε`) the split is a no-op
returning the existing `from` (resp. `to`) endpoint with graph and
overlay unchanged; for `t` strictly inside `(ε, 1-ε)`, **provided the
derived split-node id does not already name a node** (otherwise the
split returns that id and changes nothing — see the counterexample),
the edge is replaced by two edges with ids suffixed `_a` / `_b`, and
overlay membership propagates: if the original id was blocked (resp.
congested) then both new ids are in that set and the original id is in
neither set afterwards. -/
theorem splitEdgeStatusPropagation (hav : ℚ → ℚ → ℚ → ℚ → ℚ) (g : Graph)
    (eid : Str) (proj : Projection) (b t : List Str) (edge : Edge)
    (hfind : g.edges.find? (fun e => e.id == eid) = some edge) :
    (proj.t ≤ EPS →
      splitEdgeAtSync hav g eid proj b t = ⟨some edge.«from», g, b, t⟩) ∧
    (¬ proj.t ≤ EPS → proj.t ≥ 1 - EPS →
      splitEdgeAtSync hav g eid proj b t = ⟨some edge.«to», g, b, t⟩) ∧
    (¬ proj.t ≤ EPS → ¬ proj.t ≥ 1 - EPS →
      ∀ fn tn : Node,
      g.nodes.any (fun n => n.id ==
        (edge.id ++ "_p_".data ++ intToBase36 (jsRound (proj.t * 1000000)))) = false →
      g.nodes.find? (fun n => n.id == edge.«from») = some fn →
      g.nodes.find? (fun n => n.id == edge.«to») = some tn →
      (∃ e1 e2 : Edge,
        e1.id = edge.id ++ "_a".data ∧
        e2.id = edge.id ++ "_b".data ∧
        (splitEdgeAtSync hav g eid proj b t).newGraph.edges =
          g.edges.filter (fun e => ¬ e.id == edge.id) ++ [e1, e2]) ∧
      (edge.id ∈ b →
        edge.id ++ "_a".data ∈ (splitEdgeAtSync hav g eid proj b t).newBlockedSet ∧
        edge.id ++ "_b".data ∈ (splitEdgeAtSync hav g eid proj b t).newBlockedSet ∧
        edge.id ∉ (splitEdgeAtSync hav g eid proj b t).newBlockedSet ∧
        edge.id ∉ (splitEdgeAtSync hav g eid proj b t).newTrafficSet) ∧
      (edge.id ∈ t →
        edge.id ++ "_a".data ∈ (splitEdgeAtSync hav g eid proj b t).newTrafficSet ∧
        edge.id ++ "_b".data ∈ (splitEdgeAtSync hav g eid proj b t).newTrafficSet ∧
        edge.id ∉ (splitEdgeAtSync hav g eid proj b t).newTrafficSet ∧
        edge.id ∉ (splitEdgeAtSync hav g eid proj b t).newBlockedSet) ∧
      (edge.id ∉ b → (splitEdgeAtSync hav g eid proj b t).newBlockedSet = b) ∧
      (edge.id ∉ t → (splitEdgeAtSync hav g eid proj b t).newTrafficSet = t)) := by
  have hnea : edge.id ≠ edge.id ++ "_a".data :=
    ne_append_of_ne_nil edge.id ("_a".data) (by decide)
  have hneb : edge.id ≠ edge.id ++ "_b".data :=
    ne_append_of_ne_nil edge.id ("_b".data) (by decide)
  refine ⟨?_, ?_, ?_⟩
  · intro hle
    unfold splitEdgeAtSync
    rw [hfind]
    simp only [if_pos hle]
  · intro hgt hge
    unfold splitEdgeAtSync
    rw [hfind]
    simp only [if_neg hgt, if_pos hge]
  · intro hgt hlt fn tn hfresh hfn htn
    rw [splitEdgeAtSync_proper hav g eid proj b t edge fn tn hfind hgt hlt
      hfresh hfn htn]
    have hmove : ∀ u : List Str, edge.id ∈ u →
        (edge.id ++ "_a".data ∈
          sAdd (sAdd (sDel u edge.id) (edge.id ++ "_a".data)) (edge.id ++ "_b".data)) ∧
        (edge.id ++ "_b".data ∈
          sAdd (sAdd (sDel u edge.id) (edge.id ++ "_a".data)) (edge.id ++ "_b".data)) ∧
        (edge.id ∉
          sAdd (sAdd (sDel u edge.id) (edge.id ++ "_a".data)) (edge.id ++ "_b".data)) := by
      intro u _
      refine ⟨?_, ?_, ?_⟩
      · rw [mem_sAdd, mem_sAdd]
        left; right; rfl
      · rw [mem_sAdd]
        right; rfl
      · intro hc
        rcases mem_sAdd.1 hc with hc | hc
        · rcases mem_sAdd.1 hc with hc | hc
          · exact (mem_sDel.1 hc).2 rfl
          · exact hnea hc
        · exact hneb hc
    refine ⟨⟨_, _, rfl, rfl, rfl⟩, ?_, ?_, ?_, ?_⟩
    · intro hbmem
      simp only [if_pos hbmem]
      refine ⟨(hmove b hbmem).1, (hmove b hbmem).2.1, (hmove b hbmem).2.2, ?_⟩
      by_cases htmem : edge.id ∈ t
      · simp only [if_pos htmem]
        exact (hmove t htmem).2.2
      · simp only [if_neg htmem]
        exact htmem
    · intro htmem
      simp only [if_pos htmem]
      refine ⟨(hmove t htmem).1, (hmove t htmem).2.1, (hmove t htmem).2.2, ?_⟩
      by_cases hbmem : edge.id ∈ b
      · simp only [if_pos hbmem]
        exact (hmove b hbmem).2.2
      · simp only [if_neg hbmem]
        exact hbmem
    · intro hbnot
      simp only [if_neg hbnot]
    · intro htnot
      simp only [if_neg htnot]

unseal Rat.add Rat.mul Rat.inv Rat.sub in
/-- C7 counterexample: on a graph already containing a node named
`"E_p_1"`, splitting edge `"E"` at the proper fraction `t = 10⁻⁶`
(strictly inside `(ε, 1-ε)`) produces **no** replacement edges and
propagates nothing: the call returns the clashing node id with graph
and overlay unchanged, so the blocked set still contains `"E"`. -/
theorem splitProperFractionNoOpOnClash :
    EPS < projTiny.t ∧ projTiny.t < 1 - EPS ∧
    splitEdgeAtSync havApprox graphEclash edgeE.id projTiny ["E".data] [] =
      ⟨some ("E_p_1".data), graphEclash, ["E".data], []⟩ := by
  exact ⟨by decide, by decide, by decide⟩

unseal Rat.add Rat.mul Rat.inv Rat.sub in
/-- C7 witness: the midpoint split of the blocked edge `"E"` on `graphE`
replaces it by `"E_a"`, `"E_b"`, both blocked, with `"E"` in neither
overlay set. -/
theorem splitEdgeStatusPropagation_witness :
    ("E_a".data ∈
      (splitEdgeAtSync havApprox graphE edgeE.id projHalf ["E".data] []).newBlockedSet) ∧
    ("E_b".data ∈
      (splitEdgeAtSync havApprox graphE edgeE.id projHalf ["E".data] []).newBlockedSet) ∧
    ("E".data ∉
      (splitEdgeAtSync havApprox graphE edgeE.id projHalf ["E".data] []).newBlockedSet) ∧
    ("E".data ∉
      (splitEdgeAtSync havApprox graphE edgeE.id projHalf ["E".data] []).newTrafficSet) := by
  have h := (splitEdgeStatusPropagation havApprox graphE edgeE.id projHalf
    ["E".data] [] edgeE (by decide)).2.2 (by decide) (by decide) nodeA nodeB
    (by decide) (by decide) (by decide)
  exact h.2.1 (by decide)

/-- C10: each edge produced by a proper split stores
`max(1, round(haversine(endpoints)))` as its distance: a whole number of
metres, never less than 1 — including when the geometric fragment length
is under half a metre — so the two stored distances are rounded, clamped
quantities, not exact shares of the original stored distance.  Stated
for an arbitrary haversine function `hav`. -/
theorem splitEdgeDistancesRoundedClamped (hav : ℚ → ℚ → ℚ → ℚ → ℚ)
    (g : Graph) (eid : Str) (proj : Projection) (b t : List Str)
    (edge : Edge) (fn tn : Node)
    (hfind : g.edges.find? (fun e => e.id == eid) = some edge)
    (h1 : ¬ proj.t ≤ EPS) (h2 : ¬ proj.t ≥ 1 - EPS)
    (hfresh : g.nodes.any (fun n => n.id ==
      (edge.id ++ "_p_".data ++ intToBase36 (jsRound (proj.t * 1000000)))) = false)
    (hfn : g.nodes.find? (fun n => n.id == edge.«from») = some fn)
    (htn : g.nodes.find? (fun n => n.id == edge.«to») = some tn) :
    ∃ e1 e2 : Edge,
      (splitEdgeAtSync hav g eid proj b t).newGraph.edges =
        g.edges.filter (fun e => ¬ e.id == edge.id) ++ [e1, e2] ∧
      e1.distance = ((max 1 (jsRound (hav fn.lat fn.lng proj.lat proj.lng)) : ℤ) : ℚ) ∧
      e2.distance = ((max 1 (jsRound (hav proj.lat proj.lng tn.lat tn.lng)) : ℤ) : ℚ) ∧
      ∃ n1 n2 : ℕ, 1 ≤ n1 ∧ 1 ≤ n2 ∧
        e1.distance = (n1 : ℚ) ∧ e2.distance = (n2 : ℚ) := by
  rw [splitEdgeAtSync_proper hav g eid proj b t edge fn tn hfind h1 h2
    hfresh hfn htn]
  refine ⟨_, _, rfl, rfl, rfl, ?_⟩
  refine ⟨(max 1 (jsRound (hav fn.lat fn.lng proj.lat proj.lng))).toNat,
          (max 1 (jsRound (hav proj.lat proj.lng tn.lat tn.lng))).toNat, ?_, ?_, ?_, ?_⟩
  · have := le_max_left (1 : ℤ) (jsRound (hav fn.lat fn.lng proj.lat proj.lng))
    omega
  · have := le_max_left (1 : ℤ) (jsRound (hav proj.lat proj.lng tn.lat tn.lng))
    omega
  · have hnn : (0 : ℤ) ≤ max 1 (jsRound (hav fn.lat fn.lng proj.lat proj.lng)) :=
      le_trans zero_le_one (le_max_left _ _)
    rw [show ((max 1 (jsRound (hav fn.lat fn.lng proj.lat proj.lng))).toNat : ℚ)
        = (((max 1 (jsRound (hav fn.lat fn.lng proj.lat proj.lng))).toNat : ℤ) : ℚ)
      by push_cast; ring, Int.toNat_of_nonneg hnn]
  · have hnn : (0 : ℤ) ≤ max 1 (jsRound (hav proj.lat proj.lng tn.lat tn.lng)) :=
      le_trans zero_le_one (le_max_left _ _)
    rw [show ((max 1 (jsRound (hav proj.lat proj.lng tn.lat tn.lng))).toNat : ℚ)
        = (((max 1 (jsRound (hav proj.lat proj.lng tn.lat tn.lng))).toNat : ℤ) : ℚ)
      by push_cast; ring, Int.toNat_of_nonneg hnn]

unseal Rat.add Rat.mul Rat.inv Rat.sub in
/-- C10 witness: splitting the sub-metre edge `"F"` at its midpoint
yields two fragments whose geometric lengths are about 0.0555 m, yet
both stored distances are clamped to the whole number 1. -/
theorem splitEdgeDistancesRoundedClamped_witness :
    (splitEdgeAtSync havApprox graphF edgeF.id projF [] []).newGraph.edges.map
      (fun e => e.distance) = [1, 1] := by
  obtain ⟨e1, e2, heq, hd1, hd2, _⟩ :=
    splitEdgeDistancesRoundedClamped havApprox graphF edgeF.id projF [] []
      edgeF nodeA nodeB2 (by decide) (by decide) (by decide) (by decide)
      (by decide) (by decide)
  rw [heq]
  have hfil : graphF.edges.filter (fun e => ¬ e.id == edgeF.id) = [] := by decide
  have ha : ((max 1 (jsRound (havApprox nodeA.lat nodeA.lng projF.lat projF.lng)) : ℤ) : ℚ) = 1 := by
    decide
  have hb : ((max 1 (jsRound (havApprox projF.lat projF.lng nodeB2.lat nodeB2.lng)) : ℤ) : ℚ) = 1 := by
    decide
  rw [hfil, List.nil_append, List.map_cons, List.map_cons, List.map_nil, hd1,
    hd2, ha, hb]

/-! ## C2: the one-way scenario -/

unseal Rat.add Rat.mul Rat.inv Rat.sub in
/-- C2 counterexample: on the graph with only the one-way edge `A → B`,
the search from a click on `B` to a click on `A` does **not** report
"no path": it succeeds with the path
`[virtual_start, A, virtual_end]`, because each virtual endpoint is
joined by *bidirectional* connector edges to both endpoints of its
nearest edge, which bypasses the one-way restriction. -/
theorem oneWayReverseQueryNotNoPath :
    AResult.isNoPath (runAStar havApprox oneWayGraph [] [] ptB ptA 20) = false ∧
    runAStar havApprox oneWayGraph [] [] ptB ptA 20 =
      .success [startVirtualId, "A".data, endVirtualId] 111 3 := by
  exact ⟨by decide, by decide⟩

unseal Rat.add Rat.mul Rat.inv Rat.sub in
/-- C2 (amended): on the single one-way edge `A → B`, the search
succeeds in *both* directions.  `A → B` succeeds as claimed, and
`B → A` also succeeds — via the two bidirectional connector edges that
join each virtual endpoint to both endpoints of the nearest edge, the
route `[virtual_start, A, virtual_end]` avoids traversing the one-way
edge against its direction. -/
theorem oneWayScenarioBothDirectionsSucceed :
    runAStar havApprox oneWayGraph [] [] ptB ptA 20 =
      .success [startVirtualId, "A".data, endVirtualId] 111 3 ∧
    runAStar havApprox oneWayGraph [] [] ptA ptB 20 =
      .success [startVirtualId, "A".data, endVirtualId] 111 4 := by
  exact ⟨by decide, by decide⟩

/-! ## C5: disjointness of the two overlay sets -/

theorem mem_foldl_sAdd (es : List Str) (cur : List Str) (x : Str) :
    x ∈ es.foldl sAdd cur ↔ x ∈ cur ∨ x ∈ es := by
  induction es generalizing cur with
  | nil => simp
  | cons e rest ih =>
    rw [List.foldl_cons, ih, mem_sAdd]
    simp [List.mem_cons, or_assoc]

theorem mem_foldl_sDel (es : List Str) (cur : List Str) (x : Str) :
    x ∈ es.foldl sDel cur ↔ x ∈ cur ∧ x ∉ es := by
  induction es generalizing cur with
  | nil => simp
  | cons e rest ih =>
    rw [List.foldl_cons, ih, mem_sDel]
    simp only [List.mem_cons]
    constructor
    · rintro ⟨⟨h1, h2⟩, h3⟩
      exact ⟨h1, by rintro (rfl | h) <;> [exact h2 rfl; exact h3 h]⟩
    · rintro ⟨h1, h2⟩
      exact ⟨⟨h1, fun he => h2 (Or.inl he)⟩, fun hr => h2 (Or.inr hr)⟩

theorem applyBlockedRun_block (es cur : List Str) :
    applyBlockedRun es RoadStatus.block cur = es.foldl sAdd cur := by
  unfold applyBlockedRun
  have h : (fun (s : List Str) (eid : Str) =>
      if RoadStatus.block = RoadStatus.block then sAdd s eid else sDel s eid) = sAdd := by
    funext s eid; simp
  rw [h]

theorem applyBlockedRun_of_ne (es cur : List Str) (status : RoadStatus)
    (hs : status ≠ RoadStatus.block) :
    applyBlockedRun es status cur = es.foldl sDel cur := by
  unfold applyBlockedRun
  have h : (fun (s : List Str) (eid : Str) =>
      if status = RoadStatus.block then sAdd s eid else sDel s eid) = sDel := by
    funext s eid; simp [hs]
  rw [h]

theorem applyTrafficRun_traffic (es cur : List Str) :
    applyTrafficRun es RoadStatus.traffic cur = es.foldl sAdd cur := by
  unfold applyTrafficRun
  have h : (fun (s : List Str) (eid : Str) =>
      if RoadStatus.traffic = RoadStatus.traffic then sAdd s eid else sDel s eid) = sAdd := by
    funext s eid; simp
  rw [h]

theorem applyTrafficRun_of_ne (es cur : List Str) (status : RoadStatus)
    (hs : status ≠ RoadStatus.traffic) :
    applyTrafficRun es status cur = es.foldl sDel cur := by
  unfold applyTrafficRun
  have h : (fun (s : List Str) (eid : Str) =>
      if status = RoadStatus.traffic then sAdd s eid else sDel s eid) = sDel := by
    funext s eid; simp [hs]
  rw [h]

theorem splitEdgeAtSync_sets (hav : ℚ → ℚ → ℚ → ℚ → ℚ) (g : Graph)
    (eid : Str) (proj : Projection) (b t : List Str) :
    ((splitEdgeAtSync hav g eid proj b t).newBlockedSet = b ∧
     (splitEdgeAtSync hav g eid proj b t).newTrafficSet = t) ∨
    ((splitEdgeAtSync hav g eid proj b t).newBlockedSet =
       (if eid ∈ b then
          sAdd (sAdd (sDel b eid) (eid ++ "_a".data)) (eid ++ "_b".data)
        else b) ∧
     (splitEdgeAtSync hav g eid proj b t).newTrafficSet =
       (if eid ∈ t then
          sAdd (sAdd (sDel t eid) (eid ++ "_a".data)) (eid ++ "_b".data)
        else t)) := by
  simp only [splitEdgeAtSync]
  split
  · exact Or.inl ⟨rfl, rfl⟩
  · rename_i edge hf
    have hp := List.find?_some hf
    have heid : edge.id = eid := beq_iff_eq.1 hp
    subst heid
    split
    · exact Or.inl ⟨rfl, rfl⟩
    · split
      · exact Or.inl ⟨rfl, rfl⟩
      · split
        · exact Or.inl ⟨rfl, rfl⟩
        · split
          · exact Or.inr ⟨rfl, rfl⟩
          · exact Or.inl ⟨rfl, rfl⟩

theorem ovStepF_preserves_disjoint (hav : ℚ → ℚ → ℚ → ℚ → ℚ)
    {s s' : OvState} (hstep : OvStepF hav s s') (hd : OverlayDisjoint s) :
    OverlayDisjoint s' := by
  cases hstep with
  | applyRun e1 e2 status es h1 h2 hres =>
    intro x hxb hxt
    replace hxb : x ∈ applyBlockedRun es status s.blocked := hxb
    replace hxt : x ∈ applyTrafficRun es status s.traffic := hxt
    cases status with
    | block =>
      rw [applyTrafficRun_of_ne es s.traffic RoadStatus.block (by simp)] at hxt
      refine ((mem_foldl_sDel es s.traffic x).1 hxt).2 ?_
      rw [applyBlockedRun_block, mem_foldl_sAdd] at hxb
      rcases hxb with hxb | hxb
      · exact absurd ((mem_foldl_sDel es s.traffic x).1 hxt).1 (hd x hxb)
      · exact hxb
    | traffic =>
      rw [applyBlockedRun_of_ne es s.blocked RoadStatus.traffic (by simp)] at hxb
      rw [applyTrafficRun_traffic, mem_foldl_sAdd] at hxt
      rcases hxt with hxt | hxt
      · exact hd x ((mem_foldl_sDel es s.blocked x).1 hxb).1 hxt
      · exact ((mem_foldl_sDel es s.blocked x).1 hxb).2 hxt
    | clear =>
      rw [applyBlockedRun_of_ne es s.blocked RoadStatus.clear (by simp)] at hxb
      rw [applyTrafficRun_of_ne es s.traffic RoadStatus.clear (by simp)] at hxt
      exact hd x ((mem_foldl_sDel es s.blocked x).1 hxb).1
        ((mem_foldl_sDel es s.traffic x).1 hxt).1
  | toggle e status he =>
    intro x hxb hxt
    cases status with
    | block =>
      replace hxb : x ∈ sAdd s.blocked e.id := hxb
      replace hxt : x ∈ sDel s.traffic e.id := hxt
      rcases mem_sAdd.1 hxb with hxb | rfl
      · exact hd x hxb (mem_sDel.1 hxt).1
      · exact (mem_sDel.1 hxt).2 rfl
    | traffic =>
      replace hxb : x ∈ sDel s.blocked e.id := hxb
      replace hxt : x ∈ sAdd s.traffic e.id := hxt
      rcases mem_sAdd.1 hxt with hxt | rfl
      · exact hd x (mem_sDel.1 hxb).1 hxt
      · exact (mem_sDel.1 hxb).2 rfl
    | clear =>
      replace hxb : x ∈ sDel s.blocked e.id := hxb
      replace hxt : x ∈ sDel s.traffic e.id := hxt
      exact hd x (mem_sDel.1 hxb).1 (mem_sDel.1 hxt).1
  | split eid proj hfb hft =>
    intro x hxb hxt
    replace hxb : x ∈ (splitEdgeAtSync hav s.graph eid proj s.blocked s.traffic).newBlockedSet := hxb
    replace hxt : x ∈ (splitEdgeAtSync hav s.graph eid proj s.blocked s.traffic).newTrafficSet := hxt
    rcases splitEdgeAtSync_sets hav s.graph eid proj s.blocked s.traffic with
      ⟨hbs, hts⟩ | ⟨hbs, hts⟩
    · rw [hbs] at hxb; rw [hts] at hxt
      exact hd x hxb hxt
    · rw [hbs] at hxb; rw [hts] at hxt
      by_cases hbm : eid ∈ s.blocked
      · have htm : eid ∉ s.traffic := hd eid hbm
        rw [if_pos hbm] at hxb
        rw [if_neg htm] at hxt
        rcases mem_sAdd.1 hxb with hxb | rfl
        · rcases mem_sAdd.1 hxb with hxb | rfl
          · exact hd x (mem_sDel.1 hxb).1 hxt
          · exact (hfb hbm).1 hxt
        · exact (hfb hbm).2 hxt
      · rw [if_neg hbm] at hxb
        by_cases htm : eid ∈ s.traffic
        · rw [if_pos htm] at hxt
          rcases mem_sAdd.1 hxt with hxt | rfl
          · rcases mem_sAdd.1 hxt with hxt | rfl
            · exact hd x hxb (mem_sDel.1 hxt).1
            · exact (hft htm).1 hxb
          · exact (hft htm).2 hxb
        · rw [if_neg htm] at hxt
          exact hd x hxb hxt
  | clearAll =>
    intro x hxb hxt
    replace hxb : x ∈ ([] : List Str) := hxb
    simp at hxb

/-- C5 (amended): the blocked and congested sets are disjoint in every
state reachable from an empty overlay by status runs, single-edge
toggles, clear-all, and splits **whose two derived edge ids are not
already in the opposite overlay set** (the side condition the
counterexample forces; it holds in particular whenever no persistent
edge id is a `_a`/`_b`-suffixation of another).  Runs, toggles and
clear-all preserve disjointness unconditionally because applying one
status removes the affected ids from the other set. -/
theorem overlaySetsDisjoint (hav : ℚ → ℚ → ℚ → ℚ → ℚ) (g0 : Graph)
    (s : OvState) (hreach : OvReachF hav ⟨g0, [], []⟩ s) :
    OverlayDisjoint s := by
  induction hreach with
  | refl =>
    intro x hxb hxt
    replace hxb : x ∈ ([] : List Str) := hxb
    simp at hxb
  | tail hr hstep ih => exact ovStepF_preserves_disjoint hav hstep ih

unseal Rat.add Rat.mul Rat.inv Rat.sub in
/-- C5 counterexample: on a graph with persistent edge ids `"X"` and
`"X_a"`, the reachable sequence «congest `X_a`», «block `X`», «split
`X` at its midpoint» ends in a state whose blocked *and* congested sets
both contain `"X_a"` — split propagation adds the derived ids to the
blocked set without removing them from the congested set. -/
theorem splitBreaksOverlayDisjointness :
    OvReach havApprox ⟨graphX, [], []⟩ ovX3 ∧
    "X_a".data ∈ ovX3.blocked ∧ "X_a".data ∈ ovX3.traffic := by
  have h1 : OvStep havApprox ⟨graphX, [], []⟩ ovX1 :=
    OvStep.toggle ⟨graphX, [], []⟩ edgeXa RoadStatus.traffic (by decide)
  have h2 : OvStep havApprox ovX1 ovX2 :=
    OvStep.toggle ovX1 edgeX RoadStatus.block (by decide)
  have h3 : OvStep havApprox ovX2 ovX3 :=
    OvStep.split ovX2 edgeX.id projHalf
  exact ⟨OvReach.tail (OvReach.tail (OvReach.tail (OvReach.refl _) h1) h2) h3,
    by decide, by decide⟩

unseal Rat.add Rat.mul Rat.inv Rat.sub in
/-- C5 witness: blocking `"E"` and then splitting it (with fresh
derived ids) keeps the two overlay sets disjoint. -/
theorem overlaySetsDisjoint_witness : OverlayDisjoint ovE2 := by
  have h1 : OvStepF havApprox ovE0 ovE1 :=
    OvStepF.toggle ovE0 edgeE RoadStatus.block (by decide)
  have h2 : OvStepF havApprox ovE1 ovE2 :=
    OvStepF.split ovE1 edgeE.id projHalf (by decide) (by decide)
  exact overlaySetsDisjoint havApprox graphE ovE2
    (OvReachF.tail (OvReachF.tail (OvReachF.refl _) h1) h2)

/-! ## C3: the edit set equals its specification -/

theorem bfsExpand_queue_mem (edges : List Edge) (current : Str)
    (path : List Str) (es : List Edge) (queue : List (List Str))
    (visited : List Str) (p : List Str)
    (hp : p ∈ (bfsExpand edges current path queue visited es).1) :
    p ∈ queue ∨ ∃ nb, p = path ++ [nb] := by
  induction es generalizing queue visited with
  | nil => exact Or.inl hp
  | cons e rest ih =>
    unfold bfsExpand at hp
    rcases hnb : (if e.«from» = current then some e.«to»
        else if e.«to» = current then some e.«from» else none) with _ | nb
    · rw [hnb] at hp
      dsimp only at hp
      exact ih _ _ hp
    · rw [hnb] at hp
      dsimp only at hp
      by_cases hcond : nb ≠ [] ∧ nb ∉ visited
      · rw [if_pos hcond] at hp
        rcases ih _ _ hp with hq | hex
        · rcases List.mem_append.1 hq with hq | hq
          · exact Or.inl hq
          · simp at hq
            exact Or.inr ⟨nb, hq⟩
        · exact Or.inr hex
      · rw [if_neg hcond] at hp
        exact ih _ _ hp

theorem bfsLoop_some_ne_nil (edges : List Edge) (endNodeId : Str)
    (fuel : ℕ) (queue : List (List Str)) (visited : List Str)
    (pn : List Str) (hq : ∀ p ∈ queue, p ≠ [])
    (hres : bfsLoop edges endNodeId fuel queue visited = some pn) :
    pn ≠ [] := by
  induction fuel generalizing queue visited with
  | zero => cases hres
  | succ f ih =>
    cases queue with
    | nil => cases hres
    | cons path rest =>
      unfold bfsLoop at hres
      by_cases hend : jsLast path = endNodeId
      · rw [if_pos hend] at hres
        cases hres
        exact hq pn (List.mem_cons_self pn rest)
      · rw [if_neg hend] at hres
        refine ih _ _ ?_ hres
        intro p hp
        rcases bfsExpand_queue_mem edges (jsLast path) path edges rest visited p hp with
          hq' | ⟨nb, rfl⟩
        · exact hq p (List.mem_cons_of_mem path hq')
        · simp

theorem findPath_some_ne_nil (g : Graph) (a b : Str) (pn : List Str)
    (h : findPathBetweenNodesUndirected g a b = some pn) : pn ≠ [] := by
  unfold findPathBetweenNodesUndirected at h
  by_cases he : g.edges = []
  · rw [if_pos he] at h; cases h
  · rw [if_neg he] at h
    exact bfsLoop_some_ne_nil g.edges b _ [[a]] [a] pn (by simp) h

theorem mem_foldl_sAdd_ids (l : List Edge) (acc : List Str) (x : Str) :
    x ∈ l.foldl (fun s e => sAdd s e.id) acc ↔ x ∈ acc ∨ ∃ e ∈ l, x = e.id := by
  rw [show l.foldl (fun s e => sAdd s e.id) acc
      = (l.map (fun e => e.id)).foldl sAdd acc from (List.foldl_map _ _ _ _).symm,
    mem_foldl_sAdd]
  simp only [List.mem_map]
  constructor
  · rintro (h | ⟨e, he, rfl⟩)
    · exact Or.inl h
    · exact Or.inr ⟨e, he, rfl⟩
  · rintro (h | ⟨e, he, rfl⟩)
    · exact Or.inl h
    · exact Or.inr ⟨e, he, rfl⟩

theorem mem_addRunEdges (g : Graph) (ps : List (Str × Str)) (acc : List Str)
    (x : Str) :
    x ∈ addRunEdges g ps acc ↔
      x ∈ acc ∨ ∃ pr ∈ ps, ∃ e ∈ edgesBetween g pr.1 pr.2, x = e.id := by
  induction ps generalizing acc with
  | nil => simp [addRunEdges]
  | cons pr rest ih =>
    unfold addRunEdges
    rw [ih, mem_foldl_sAdd_ids]
    simp only [List.mem_cons]
    constructor
    · rintro ((h | ⟨e, he, rfl⟩) | ⟨q, hq, e, he, rfl⟩)
      · exact Or.inl h
      · exact Or.inr ⟨pr, Or.inl rfl, e, he, rfl⟩
      · exact Or.inr ⟨q, Or.inr hq, e, he, rfl⟩
    · rintro (h | ⟨q, hq | hq, e, he, rfl⟩)
      · exact Or.inl (Or.inl h)
      · exact Or.inl (Or.inr ⟨e, hq ▸ he, rfl⟩)
      · exact Or.inr ⟨q, hq, e, he, rfl⟩

/-- C3: the edit set computed by the second road-status click equals,
as an optional set of edge ids, the specification's description: the
single clicked edge when both clicks resolve to the same edge, else the
two clicked ids plus all parallel edges between consecutive node pairs
along the first succeeding of the four BFS attempts in the fixed order,
failing exactly when the specification's description fails. -/
theorem editSetMatchesSpec (g : Graph) (startEdgeInfo endEdgeInfo : EdgeInfo) :
    ((computeEditSet g startEdgeInfo endEdgeInfo).isSome =
      (specEditSet g startEdgeInfo endEdgeInfo).isSome) ∧
    ∀ x : Str, memEdit (computeEditSet g startEdgeInfo endEdgeInfo) x ↔
      memEdit (specEditSet g startEdgeInfo endEdgeInfo) x := by
  unfold computeEditSet specEditSet
  by_cases hsame : startEdgeInfo.edgeId = endEdgeInfo.edgeId
  · rw [if_pos hsame, if_pos hsame]
    have hs : sAdd [] startEdgeInfo.edgeId = [startEdgeInfo.edgeId] := by
      simp [sAdd]
    rw [hs]
    exact ⟨rfl, fun x => Iff.rfl⟩
  · rw [if_neg hsame, if_neg hsame]
    cases hch :
      (findPathBetweenNodesUndirected g startEdgeInfo.«to» endEdgeInfo.«from»).orElse (fun _ =>
      (findPathBetweenNodesUndirected g startEdgeInfo.«from» endEdgeInfo.«to»).orElse (fun _ =>
      (findPathBetweenNodesUndirected g startEdgeInfo.«to» endEdgeInfo.«to»).orElse (fun _ =>
      findPathBetweenNodesUndirected g startEdgeInfo.«from» endEdgeInfo.«from»))) with
    | none => exact ⟨rfl, fun x => Iff.rfl⟩
    | some pn =>
      have hne : pn ≠ [] := by
        cases hch1 : findPathBetweenNodesUndirected g startEdgeInfo.«to» endEdgeInfo.«from» with
        | some q1 =>
          rw [hch1] at hch
          obtain rfl := Option.some.inj hch
          exact findPath_some_ne_nil g _ _ _ hch1
        | none =>
          rw [hch1] at hch
          replace hch :
              ((findPathBetweenNodesUndirected g startEdgeInfo.«from» endEdgeInfo.«to»).orElse fun _ =>
               (findPathBetweenNodesUndirected g startEdgeInfo.«to» endEdgeInfo.«to»).orElse fun _ =>
               findPathBetweenNodesUndirected g startEdgeInfo.«from» endEdgeInfo.«from») = some pn := hch
          cases hch2 : findPathBetweenNodesUndirected g startEdgeInfo.«from» endEdgeInfo.«to» with
          | some q2 =>
            rw [hch2] at hch
            obtain rfl := Option.some.inj hch
            exact findPath_some_ne_nil g _ _ _ hch2
          | none =>
            rw [hch2] at hch
            replace hch :
                ((findPathBetweenNodesUndirected g startEdgeInfo.«to» endEdgeInfo.«to»).orElse fun _ =>
                 findPathBetweenNodesUndirected g startEdgeInfo.«from» endEdgeInfo.«from») = some pn := hch
            cases hch3 : findPathBetweenNodesUndirected g startEdgeInfo.«to» endEdgeInfo.«to» with
            | some q3 =>
              rw [hch3] at hch
              obtain rfl := Option.some.inj hch
              exact findPath_some_ne_nil g _ _ _ hch3
            | none =>
              rw [hch3] at hch
              replace hch :
                  findPathBetweenNodesUndirected g startEdgeInfo.«from» endEdgeInfo.«from» = some pn := hch
              exact findPath_some_ne_nil g _ _ pn hch
      dsimp only
      rw [if_pos hne]
      refine ⟨rfl, fun x => ?_⟩
      unfold memEdit
      constructor
      · rintro ⟨l, hl, hx⟩
        cases hl
        refine ⟨_, rfl, ?_⟩
        rcases (mem_addRunEdges g (consecPairs pn)
            (sAdd (sAdd [] startEdgeInfo.edgeId) endEdgeInfo.edgeId) x).1 hx with
          h | ⟨pr, hpr, e, he, rfl⟩
        · have : x ∈ [startEdgeInfo.edgeId, endEdgeInfo.edgeId] := by
            have hs : sAdd (sAdd [] startEdgeInfo.edgeId) endEdgeInfo.edgeId =
                [startEdgeInfo.edgeId, endEdgeInfo.edgeId] := by
              have hsame' : endEdgeInfo.edgeId ≠ startEdgeInfo.edgeId :=
                fun h => hsame h.symm
              simp [sAdd, hsame']
            rw [hs] at h
            exact h
          simp only [List.mem_cons] at this ⊢
          rcases this with h | h | h
          · exact Or.inl h
          · exact Or.inr (Or.inl h)
          · cases h
        · simp only [List.mem_cons]
          refine Or.inr (Or.inr ?_)
          rw [List.mem_flatMap]
          exact ⟨pr, hpr, List.mem_map.2 ⟨e, he, rfl⟩⟩
      · rintro ⟨l, hl, hx⟩
        cases hl
        refine ⟨_, rfl, ?_⟩
        rw [mem_addRunEdges]
        have hs : sAdd (sAdd [] startEdgeInfo.edgeId) endEdgeInfo.edgeId =
            [startEdgeInfo.edgeId, endEdgeInfo.edgeId] := by
          have hsame' : endEdgeInfo.edgeId ≠ startEdgeInfo.edgeId :=
            fun h => hsame h.symm
          simp [sAdd, hsame']
        simp only [List.mem_cons] at hx
        rcases hx with rfl | rfl | hx
        · exact Or.inl (by rw [hs]; simp)
        · exact Or.inl (by rw [hs]; simp)
        · rw [List.mem_flatMap] at hx
          rcases hx with ⟨pr, hpr, hmap⟩
          rcases List.mem_map.1 hmap with ⟨e, he, rfl⟩
          exact Or.inr ⟨pr, hpr, e, he, rfl⟩

/-! ## C1: blocked edges are never traversed by a successful search -/

theorem isVirtualId_append (x y : Str) (h : isVirtualId x = true) :
    isVirtualId (x ++ y) = true := by
  unfold isVirtualId at h ⊢
  rw [List.isPrefixOf_iff_prefix] at h ⊢
  exact h.trans (List.prefix_append x y)

theorem splitEdgeAtSync_cases (hav : ℚ → ℚ → ℚ → ℚ → ℚ) (g : Graph)
    (eid : Str) (proj : Projection) (b t : List Str) :
    ((splitEdgeAtSync hav g eid proj b t).newGraph = g ∧
     (splitEdgeAtSync hav g eid proj b t).newBlockedSet = b ∧
     (splitEdgeAtSync hav g eid proj b t).newTrafficSet = t) ∨
    (∃ e1 e2 : Edge,
      e1.id = eid ++ "_a".data ∧ e2.id = eid ++ "_b".data ∧
      (splitEdgeAtSync hav g eid proj b t).newGraph.edges =
        g.edges.filter (fun e => ¬ e.id == eid) ++ [e1, e2] ∧
      (splitEdgeAtSync hav g eid proj b t).newBlockedSet =
        (if eid ∈ b then sAdd (sAdd (sDel b eid) e1.id) e2.id else b) ∧
      (splitEdgeAtSync hav g eid proj b t).newTrafficSet =
        (if eid ∈ t then sAdd (sAdd (sDel t eid) e1.id) e2.id else t)) := by
  simp only [splitEdgeAtSync]
  split
  · exact Or.inl ⟨rfl, rfl, rfl⟩
  · rename_i edge hf
    have hp := List.find?_some hf
    have heid : edge.id = eid := beq_iff_eq.1 hp
    subst heid
    split
    · exact Or.inl ⟨rfl, rfl, rfl⟩
    · split
      · exact Or.inl ⟨rfl, rfl, rfl⟩
      · split
        · exact Or.inl ⟨rfl, rfl, rfl⟩
        · split
          · exact Or.inr ⟨_, _, rfl, rfl, rfl, rfl, rfl⟩
          · exact Or.inl ⟨rfl, rfl, rfl⟩

theorem ovStep_graph_nonvirt_back (hav : ℚ → ℚ → ℚ → ℚ → ℚ)
    {s s' : OvState} (hstep : OvStep hav s s')
    (hg : ∀ e ∈ s'.graph.edges, isVirtualId e.id = false) :
    ∀ e ∈ s.graph.edges, isVirtualId e.id = false := by
  cases hstep with
  | applyRun e1 e2 status es h1 h2 hres => exact hg
  | toggle e status he => exact hg
  | clearAll => exact hg
  | split eid proj =>
    intro e he
    rcases splitEdgeAtSync_cases hav s.graph eid proj s.blocked s.traffic with
      ⟨hgr, _, _⟩ | ⟨e1, e2, hid1, hid2, hedges, _, _⟩
    · replace hg : ∀ x ∈ (splitEdgeAtSync hav s.graph eid proj s.blocked
          s.traffic).newGraph.edges, isVirtualId x.id = false := hg
      rw [hgr] at hg
      exact hg e he
    · replace hg : ∀ x ∈ (splitEdgeAtSync hav s.graph eid proj s.blocked
          s.traffic).newGraph.edges, isVirtualId x.id = false := hg
      rw [hedges] at hg
      by_cases hide : e.id = eid
      · have he1 : e1 ∈ s.graph.edges.filter (fun x => ¬ x.id == eid) ++ [e1, e2] := by
          simp
        have hv1 : isVirtualId e1.id = false := hg e1 he1
        cases hv : isVirtualId e.id with
        | false => rfl
        | true =>
          rw [hide] at hv
          rw [hid1, isVirtualId_append eid ("_a".data) hv] at hv1
          cases hv1
      · have hef : e ∈ s.graph.edges.filter (fun x => ¬ x.id == eid) ++ [e1, e2] := by
          refine List.mem_append.2 (Or.inl (List.mem_filter.2 ⟨he, ?_⟩))
          simp [hide]
        exact hg e hef

theorem mem_applyBlockedRun_sub (es : List Str) (status : RoadStatus)
    (cur : List Str) (x : Str) (h : x ∈ applyBlockedRun es status cur) :
    x ∈ cur ∨ x ∈ es := by
  by_cases hs : status = RoadStatus.block
  · subst hs
    rw [applyBlockedRun_block, mem_foldl_sAdd] at h
    exact h
  · rw [applyBlockedRun_of_ne es cur status hs, mem_foldl_sDel] at h
    exact Or.inl h.1

theorem mem_applyTrafficRun_sub (es : List Str) (status : RoadStatus)
    (cur : List Str) (x : Str) (h : x ∈ applyTrafficRun es status cur) :
    x ∈ cur ∨ x ∈ es := by
  by_cases hs : status = RoadStatus.traffic
  · subst hs
    rw [applyTrafficRun_traffic, mem_foldl_sAdd] at h
    exact h
  · rw [applyTrafficRun_of_ne es cur status hs, mem_foldl_sDel] at h
    exact Or.inl h.1

theorem computeEditSet_mem (g : Graph) (a b : EdgeInfo) (es : List Str)
    (x : Str) (hres : computeEditSet g a b = some es) (hx : x ∈ es) :
    x = a.edgeId ∨ x = b.edgeId ∨ ∃ e ∈ g.edges, x = e.id := by
  unfold computeEditSet at hres
  by_cases hsame : a.edgeId = b.edgeId
  · rw [if_pos hsame] at hres
    obtain rfl := Option.some.inj hres
    rcases mem_sAdd.1 hx with hx | rfl
    · cases hx
    · exact Or.inl rfl
  · rw [if_neg hsame] at hres
    cases hch :
      (findPathBetweenNodesUndirected g a.«to» b.«from»).orElse (fun _ =>
      (findPathBetweenNodesUndirected g a.«from» b.«to»).orElse (fun _ =>
      (findPathBetweenNodesUndirected g a.«to» b.«to»).orElse (fun _ =>
      findPathBetweenNodesUndirected g a.«from» b.«from»))) with
    | none => rw [hch] at hres; cases hres
    | some pn =>
      rw [hch] at hres
      dsimp only at hres
      by_cases hne : pn ≠ []
      · rw [if_pos hne] at hres
        obtain rfl := Option.some.inj hres
        rcases (mem_addRunEdges g (consecPairs pn)
            (sAdd (sAdd [] a.edgeId) b.edgeId) x).1 hx with h | ⟨pr, _, e, he, rfl⟩
        · rcases mem_sAdd.1 h with h | rfl
          · rcases mem_sAdd.1 h with h | rfl
            · cases h
            · exact Or.inl rfl
          · exact Or.inr (Or.inl rfl)
        · exact Or.inr (Or.inr ⟨e, (List.mem_filter.1 he).1, rfl⟩)
      · rw [if_neg hne] at hres
        cases hres

theorem ovStep_overlay_nonvirt (hav : ℚ → ℚ → ℚ → ℚ → ℚ)
    {s s' : OvState} (hstep : OvStep hav s s')
    (hg' : ∀ e ∈ s'.graph.edges, isVirtualId e.id = false)
    (hb : ∀ x ∈ s.blocked, isVirtualId x = false)
    (ht : ∀ x ∈ s.traffic, isVirtualId x = false) :
    (∀ x ∈ s'.blocked, isVirtualId x = false) ∧
    (∀ x ∈ s'.traffic, isVirtualId x = false) := by
  cases hstep with
  | applyRun e1 e2 status es h1 h2 hres =>
    have hes : ∀ x ∈ es, isVirtualId x = false := by
      intro x hx
      rcases computeEditSet_mem s.graph (infoOf e1) (infoOf e2) es x hres hx with
        rfl | rfl | ⟨e, he, rfl⟩
      · exact hg' e1 h1
      · exact hg' e2 h2
      · exact hg' e he
    constructor
    · intro x hx
      rcases mem_applyBlockedRun_sub es status s.blocked x hx with h | h
      · exact hb x h
      · exact hes x h
    · intro x hx
      rcases mem_applyTrafficRun_sub es status s.traffic x hx with h | h
      · exact ht x h
      · exact hes x h
  | toggle e status he =>
    have hev : isVirtualId e.id = false := hg' e he
    constructor
    · intro x hx
      replace hx : x ∈ (if status = RoadStatus.block then sAdd s.blocked e.id
          else sDel s.blocked e.id) := hx
      by_cases hs : status = RoadStatus.block
      · rw [if_pos hs] at hx
        rcases mem_sAdd.1 hx with hx | rfl
        · exact hb x hx
        · exact hev
      · rw [if_neg hs] at hx
        exact hb x (mem_sDel.1 hx).1
    · intro x hx
      replace hx : x ∈ (if status = RoadStatus.traffic then sAdd s.traffic e.id
          else sDel s.traffic e.id) := hx
      by_cases hs : status = RoadStatus.traffic
      · rw [if_pos hs] at hx
        rcases mem_sAdd.1 hx with hx | rfl
        · exact ht x hx
        · exact hev
      · rw [if_neg hs] at hx
        exact ht x (mem_sDel.1 hx).1
  | split eid proj =>
    rcases splitEdgeAtSync_cases hav s.graph eid proj s.blocked s.traffic with
      ⟨_, hbs, hts⟩ | ⟨e1, e2, hid1, hid2, hedges, hbs, hts⟩
    · constructor
      · intro x hx
        replace hx : x ∈ (splitEdgeAtSync hav s.graph eid proj s.blocked
            s.traffic).newBlockedSet := hx
        rw [hbs] at hx
        exact hb x hx
      · intro x hx
        replace hx : x ∈ (splitEdgeAtSync hav s.graph eid proj s.blocked
            s.traffic).newTrafficSet := hx
        rw [hts] at hx
        exact ht x hx
    · have hg'' : ∀ x ∈ (splitEdgeAtSync hav s.graph eid proj s.blocked
          s.traffic).newGraph.edges, isVirtualId x.id = false := hg'
      rw [hedges] at hg''
      have hv1 : isVirtualId e1.id = false := hg'' e1 (by simp)
      have hv2 : isVirtualId e2.id = false := hg'' e2 (by simp)
      constructor
      · intro x hx
        replace hx : x ∈ (splitEdgeAtSync hav s.graph eid proj s.blocked
            s.traffic).newBlockedSet := hx
        rw [hbs] at hx
        by_cases hm : eid ∈ s.blocked
        · rw [if_pos hm] at hx
          rcases mem_sAdd.1 hx with hx | rfl
          · rcases mem_sAdd.1 hx with hx | rfl
            · exact hb x (mem_sDel.1 hx).1
            · exact hv1
          · exact hv2
        · rw [if_neg hm] at hx
          exact hb x hx
      · intro x hx
        replace hx : x ∈ (splitEdgeAtSync hav s.graph eid proj s.blocked
            s.traffic).newTrafficSet := hx
        rw [hts] at hx
        by_cases hm : eid ∈ s.traffic
        · rw [if_pos hm] at hx
          rcases mem_sAdd.1 hx with hx | rfl
          · rcases mem_sAdd.1 hx with hx | rfl
            · exact ht x (mem_sDel.1 hx).1
            · exact hv1
          · exact hv2
        · rw [if_neg hm] at hx
          exact ht x hx
  | clearAll =>
    constructor
    · intro x hx
      replace hx : x ∈ ([] : List Str) := hx
      cases hx
    · intro x hx
      replace hx : x ∈ ([] : List Str) := hx
      cases hx

theorem ovReach_overlay_nonvirt (hav : ℚ → ℚ → ℚ → ℚ → ℚ) (g0 : Graph)
    (s : OvState) (hreach : OvReach hav ⟨g0, [], []⟩ s)
    (hg : ∀ e ∈ s.graph.edges, isVirtualId e.id = false) :
    (∀ x ∈ s.blocked, isVirtualId x = false) ∧
    (∀ x ∈ s.traffic, isVirtualId x = false) := by
  induction hreach with
  | refl =>
    constructor
    · intro x hx
      replace hx : x ∈ ([] : List Str) := hx
      cases hx
    · intro x hx
      replace hx : x ∈ ([] : List Str) := hx
      cases hx
  | tail hr hstep ih =>
    have hgmid := ovStep_graph_nonvirt_back hav hstep hg
    have hov := ih hgmid
    exact ovStep_overlay_nonvirt hav hstep hg hov.1 hov.2

theorem mem_of_lookup {α : Type} (m : List (Str × α)) (k : Str) (v : α)
    (h : m.lookup k = some v) : (k, v) ∈ m := by
  induction m with
  | nil => cases h
  | cons p rest ih =>
    rw [List.lookup_cons] at h
    cases hk : (k == p.1) with
    | true =>
      rw [hk] at h
      replace h : some p.2 = some v := h
      obtain rfl := Option.some.inj h
      have hkp : k = p.1 := by simpa using hk
      rw [hkp]
      exact List.mem_cons_self p rest
    | false =>
      rw [hk] at h
      replace h : rest.lookup k = some v := h
      exact List.mem_cons_of_mem _ (ih h)

theorem findMinLoop_mem (P : Str → Prop) (fs : List (Str × ℚ))
    (l : List Str) (cur : Option Str) (low : Option ℚ) (c : Str)
    (hres : findMinLoop fs l cur low = some c)
    (hcur : ∀ x, cur = some x → P x) (hl : ∀ x ∈ l, P x) : P c := by
  induction l generalizing cur low with
  | nil =>
    unfold findMinLoop at hres
    exact hcur c hres
  | cons nd rest ih =>
    unfold findMinLoop at hres
    by_cases hlt : oLT (orInf (fs.lookup nd)) low = true
    · rw [if_pos hlt] at hres
      exact ih _ _ hres (fun x hx => (Option.some.inj hx) ▸ hl nd (List.mem_cons_self nd rest))
        (fun x hx => hl x (List.mem_cons_of_mem nd hx))
    · rw [if_neg hlt] at hres
      exact ih _ _ hres hcur (fun x hx => hl x (List.mem_cons_of_mem nd hx))

theorem neighbors_stepOK (c : Ctx) (u : Str) (p : Str × ℚ)
    (h : p ∈ getAugmentedNeighbors c u) :
    StepOK c.augEdges c.blocked u p.1 := by
  rcases List.mem_filterMap.1 h with ⟨e, he, hfe⟩
  by_cases hskip : e.id ∈ c.blocked ∧ ¬ isVirtualId e.id
  · rw [if_pos hskip] at hfe
    cases hfe
  · rw [if_neg hskip] at hfe
    refine ⟨e, he, ?_, ?_⟩
    · intro hbm
      by_contra hnv
      exact hskip ⟨hbm, by simpa using hnv⟩
    · by_cases h1 : e.«from» = u
      · rw [if_pos h1] at hfe
        obtain rfl := Option.some.inj hfe
        exact Or.inl ⟨h1, rfl⟩
      · rw [if_neg h1] at hfe
        by_cases h2 : e.«to» = u ∧ e.bidirectional
        · rw [if_pos h2] at hfe
          obtain rfl := Option.some.inj hfe
          exact Or.inr ⟨h2.1, rfl, by simpa using h2.2⟩
        · rw [if_neg h2] at hfe
          cases hfe

theorem processNeighbors_inv (c : Ctx) (u : Str) (ns : List (Str × ℚ))
    (st : AState)
    (hns : ∀ p ∈ ns, StepOK c.augEdges c.blocked u p.1)
    (hcur : ReachOK c.augEdges c.blocked startVirtualId u)
    (hinv : InvCF c.augEdges c.blocked st) :
    InvCF c.augEdges c.blocked (processNeighbors c u ns st) := by
  induction ns generalizing st with
  | nil => exact hinv
  | cons p rest ih =>
    obtain ⟨nid, cost⟩ := p
    have hstep : StepOK c.augEdges c.blocked u nid :=
      hns (nid, cost) (List.mem_cons_self _ rest)
    have hrest : ∀ q ∈ rest, StepOK c.augEdges c.blocked u q.1 :=
      fun q hq => hns q (List.mem_cons_of_mem _ hq)
    have hupd : InvCF c.augEdges c.blocked
        { st with cameFrom := mSet st.cameFrom nid u,
                  gScore := mSet st.gScore nid (((st.gScore.lookup u).getD 0) + cost),
                  fScore := mSet st.fScore nid
                    ((((st.gScore.lookup u).getD 0) + cost) + heuristicFunc c nid) } := by
      refine ⟨?_, hinv.2⟩
      intro pr hpr
      rcases mem_mSet hpr with hpr | rfl
      · exact hinv.1 pr hpr
      · exact hstep
    have hupd2 : InvCF c.augEdges c.blocked
        { st with openSet := sAdd st.openSet nid,
                  cameFrom := mSet st.cameFrom nid u,
                  gScore := mSet st.gScore nid (((st.gScore.lookup u).getD 0) + cost),
                  fScore := mSet st.fScore nid
                    ((((st.gScore.lookup u).getD 0) + cost) + heuristicFunc c nid) } := by
      refine ⟨hupd.1, ?_⟩
      intro m hm
      rcases mem_sAdd.1 hm with hm | rfl
      · exact hinv.2 m hm
      · exact ReachOK.tail hcur hstep
    unfold processNeighbors
    by_cases h1 : nid ∈ st.closedSet
    · rw [if_pos h1]
      exact ih st hrest hinv
    · rw [if_neg h1]
      by_cases h2 : nid ∉ st.openSet
      · rw [if_pos h2]
        exact ih _ hrest hupd2
      · rw [if_neg h2]
        by_cases h3 : geInf (((st.gScore.lookup u).getD 0) + cost)
            (orInf (st.gScore.lookup nid)) = true
        · rw [if_pos h3]
          exact ih st hrest hinv
        · rw [if_neg h3]
          exact ih _ hrest hupd

theorem reconstructPath_chain (cf : List (Str × Str)) (augE : List Edge)
    (blocked : List Str)
    (hcf : ∀ pr ∈ cf, StepOK augE blocked pr.2 pr.1) (fuel : ℕ)
    (cur : Str) (acc : List Str)
    (hacc : List.Chain' (StepOK augE blocked) (cur :: acc)) :
    List.Chain' (StepOK augE blocked) (reconstructPath cf fuel cur acc) := by
  induction fuel generalizing cur acc with
  | zero => exact hacc
  | succ f ih =>
    unfold reconstructPath
    cases hl : cf.lookup cur with
    | none => exact hacc
    | some prev =>
      refine ih prev (cur :: acc) (List.chain'_cons.2 ⟨?_, hacc⟩)
      exact hcf (cur, prev) (mem_of_lookup cf cur prev hl)

theorem astarLoop_safety (c : Ctx) (fuel : ℕ) (st : AState) (ex : ℕ)
    (path : List Str) (dist : ℚ) (n : ℕ)
    (hinv : InvCF c.augEdges c.blocked st)
    (hres : astarLoop c fuel st ex = .success path dist n) :
    List.Chain' (StepOK c.augEdges c.blocked) path ∧
    ReachOK c.augEdges c.blocked startVirtualId endVirtualId := by
  induction fuel generalizing st ex with
  | zero =>
    unfold astarLoop at hres
    by_cases hop : st.openSet = []
    · rw [if_pos hop] at hres; cases hres
    · rw [if_neg hop] at hres; cases hres
  | succ f ih =>
    unfold astarLoop at hres
    by_cases hop : st.openSet = []
    · rw [if_pos hop] at hres; cases hres
    · rw [if_neg hop] at hres
      cases hmin : findMinLoop st.fScore st.openSet none none with
      | none =>
        rw [hmin] at hres
        exact ih st (ex + 1) hinv hres
      | some current =>
        rw [hmin] at hres
        dsimp only at hres
        have hcurmem : current ∈ st.openSet :=
          findMinLoop_mem (fun x => x ∈ st.openSet) st.fScore st.openSet
            none none current hmin (fun x hx => by cases hx) (fun x hx => hx)
        have hcurreach := hinv.2 current hcurmem
        by_cases hend : current = endVirtualId
        · rw [if_pos hend] at hres
          cases hres
          refine ⟨reconstructPath_chain st.cameFrom c.augEdges c.blocked
            hinv.1 _ _ _ (List.chain'_singleton current), ?_⟩
          exact hend ▸ hcurreach
        · rw [if_neg hend] at hres
          refine ih _ (ex + 1) ?_ hres
          refine processNeighbors_inv c current _ _
            (fun p hp => neighbors_stepOK c current p hp) hcurreach ⟨hinv.1, ?_⟩
          intro m hm
          replace hm : m ∈ sDel st.openSet current := hm
          exact hinv.2 m (mem_sDel.1 hm).1

theorem stepOK_safe (augE : List Edge) (blocked : List Str)
    (hb : ∀ x ∈ blocked, isVirtualId x = false) (a b : Str)
    (h : StepOK augE blocked a b) : StepSafe augE blocked a b := by
  rcases h with ⟨e, he, hcond, hor⟩
  refine ⟨e, he, ?_, hor⟩
  intro hbm
  have h1 := hcond hbm
  have h2 := hb e.id hbm
  rw [h1] at h2
  cases h2

theorem reachOK_safe (augE : List Edge) (blocked : List Str)
    (hb : ∀ x ∈ blocked, isVirtualId x = false) (a b : Str)
    (h : ReachOK augE blocked a b) : ReachSafe augE blocked a b := by
  induction h with
  | refl => exact ReachSafe.refl _
  | tail hr hs ih => exact ReachSafe.tail ih (stepOK_safe augE blocked hb _ _ hs)

/-- C1: for every graph whose persistent edge ids do not begin with
`"virtual_"`, every overlay state reachable by the overlay-mutating
operations, and every pair of bound start/end points, a successful A*
run never returns a path that needs a blocked edge: every consecutive
step of the returned path is realised by an augmented edge whose id is
not in the blocked set, and the virtual end point is reachable from the
virtual start point through such non-blocked steps — so when blocking
disconnects start from end no successful result can be produced (the
search reports no path instead of a path using a blocked edge). -/
theorem blockedEdgesNeverTraversed (hav : ℚ → ℚ → ℚ → ℚ → ℚ) (g0 : Graph)
    (s : OvState) (hreach : OvReach hav ⟨g0, [], []⟩ s)
    (hg : ∀ e ∈ s.graph.edges, isVirtualId e.id = false)
    (sp ep : Point) (fuel : ℕ) (path : List Str) (dist : ℚ) (n : ℕ)
    (hrun : runAStar hav s.graph s.blocked s.traffic sp ep fuel =
      .success path dist n) :
    List.Chain' (StepSafe (augmentedEdges hav s.graph sp ep) s.blocked) path ∧
    ReachSafe (augmentedEdges hav s.graph sp ep) s.blocked
      startVirtualId endVirtualId := by
  have hb := (ovReach_overlay_nonvirt hav g0 s hreach hg).1
  have hres : astarLoop (mkCtx hav s.graph s.blocked s.traffic sp ep) fuel
      { openSet := [startVirtualId], closedSet := [], cameFrom := [],
        gScore := [(startVirtualId, 0)],
        fScore := [(startVirtualId,
          heuristicFunc (mkCtx hav s.graph s.blocked s.traffic sp ep)
            startVirtualId)] } 0 = .success path dist n := hrun
  have hinv : InvCF (mkCtx hav s.graph s.blocked s.traffic sp ep).augEdges
      (mkCtx hav s.graph s.blocked s.traffic sp ep).blocked
      { openSet := [startVirtualId], closedSet := [], cameFrom := [],
        gScore := [(startVirtualId, 0)],
        fScore := [(startVirtualId,
          heuristicFunc (mkCtx hav s.graph s.blocked s.traffic sp ep)
            startVirtualId)] } := by
    constructor
    · intro pr hpr
      cases hpr
    · intro m hm
      rcases List.mem_singleton.1 hm with rfl
      exact ReachOK.refl startVirtualId
  have hsafe := astarLoop_safety (mkCtx hav s.graph s.blocked s.traffic sp ep)
    fuel _ 0 path dist n hinv hres
  have haug : (mkCtx hav s.graph s.blocked s.traffic sp ep).augEdges =
      augmentedEdges hav s.graph sp ep := rfl
  have hbl : (mkCtx hav s.graph s.blocked s.traffic sp ep).blocked = s.blocked := rfl
  rw [haug, hbl] at hsafe
  exact ⟨List.Chain'.imp (fun a b h =>
      stepOK_safe (augmentedEdges hav s.graph sp ep) s.blocked hb a b h) hsafe.1,
    reachOK_safe (augmentedEdges hav s.graph sp ep) s.blocked hb _ _ hsafe.2⟩

unseal Rat.add Rat.mul Rat.inv Rat.sub in
/-- C1 witness: on the triangle `A,B,C` with edge `"e1"` (`A–B`) blocked
by a toggle, the successful run from `A` to `C` returns the path
`[virtual_start, A, C, virtual_end]`, every step of which is realised by
a non-blocked augmented edge, and the virtual end point is reachable
from the virtual start point through non-blocked steps. -/
theorem blockedEdgesNeverTraversed_witness :
    List.Chain' (StepSafe (augmentedEdges havApprox ovTri1.graph ptA ptC)
      ovTri1.blocked)
      [startVirtualId, "A".data, "C".data, endVirtualId] ∧
    ReachSafe (augmentedEdges havApprox ovTri1.graph ptA ptC) ovTri1.blocked
      startVirtualId endVirtualId :=
  blockedEdgesNeverTraversed havApprox triGraph ovTri1
    (OvReach.tail (OvReach.refl _)
      (OvStep.toggle ⟨triGraph, [], []⟩ triE1 RoadStatus.block (by decide)))
    (by decide) ptA ptC 30 _ 111 4 (by decide)

end PathViz
